import Mathlib

/-!
# Streaming Sobel pipeline of `kernel_v3.cpp`

A shallow embedding of the three pipeline stages of `image_process`
(`read_and_grayscale`, `sobel_process`, `write_and_pack`) and of the helpers
they use, followed by theorems about them.

Conventions of the embedding.

* `PIXEL_TYPE` (`ap_uint<8>`), `BUS_TYPE` (`ap_uint<32>`) and `WIDE_BUS_TYPE`
  (`ap_uint<512>`) values are natural numbers; a conversion to one of these
  types is an explicit reduction modulo `2 ^ 8`, `2 ^ 32` or `2 ^ 512`.
* `int` values are integers; the products and sums that can leave the 32-bit
  range for positive arguments are reduced with `wrap32`.
* An `hls::stream` is the list of the values it holds, oldest first: `read`
  removes the head, `write` appends at the end.  A `read` on an empty stream
  has no result (`none`).
* A pointer argument that is read is the list of the words it points to; an
  access outside the list has no result (`none`).  A pointer argument that is
  written is represented by the log of the writes `(index, word)`.
-/

namespace ImageProcess

/-! ## Constants and machine integers -/

def MAX_WIDTH : Nat := 4096

def KERNEL_SIZE : Nat := 3

def WIDE_BUS_WIDTH : Nat := 512

def PIXELS_PER_BURST : Nat := WIDE_BUS_WIDTH / 32

/-- Reduction of an integer to the 32-bit two's complement range of `int`. -/
def wrap32 (x : Int) : Int := (x + 2147483648) % 4294967296 - 2147483648

/-- Cell `[k][l]` of a two-dimensional array, stored as the list of its rows. -/
def get2 (a : List (List Nat)) (k l : Nat) : Nat := (a.getD k []).getD l 0

/-- Write `v` to cell `[k][l]` of a two-dimensional array. -/
def set2 (a : List (List Nat)) (k l v : Nat) : List (List Nat) :=
  a.set k ((a.getD k []).set l v)

/-- The two-dimensional array with `m` rows and `n` columns whose cell `[k][l]`
holds `f k l`. -/
def array2 (m n : Nat) (f : Nat → Nat → Nat) : List (List Nat) :=
  (List.range m).map fun k => (List.range n).map fun l => f k l

/-! ## Luma conversion -/

/-- The function `grayscale_weighted`: the operands are widened by the
multiplication, the sum is shifted right by 8 and the result is converted to the
8-bit `PIXEL_TYPE`. -/
def grayscale_weighted (r g b : Nat) : Nat :=
  ((r * 77 + g * 150 + b * 29) >>> 8) % 2 ^ 8

/-- The bit range `wide_data((p + 1) * 32 - 1, p * 32)` read as a `BUS_TYPE`. -/
def slot (wide_data p : Nat) : Nat := (wide_data >>> (p * 32)) % 2 ^ 32

/-- Body of `UNPACK_PIXELS` for slot `p`: the luma sample written to the stream. -/
def unpack_pixel (wide_data p : Nat) : Nat :=
  let pixel_32 := slot wide_data p
  let r := (pixel_32 >>> 16) &&& 0xFF
  let g := (pixel_32 >>> 8) &&& 0xFF
  let b := pixel_32 &&& 0xFF
  grayscale_weighted r g b

/-- The loop `UNPACK_PIXELS`: the samples of slots `0 .. PIXELS_PER_BURST - 1`
are written to the stream in this order. -/
def unpack_pixels (wide_data : Nat) (stream_grayscale : List Nat) : List Nat :=
  (List.range PIXELS_PER_BURST).foldl
    (fun s p => s ++ [unpack_pixel wide_data p]) stream_grayscale

/-- The loop `READ_BURST_LOOP` from counter `i` with `n` iterations left. -/
def read_burst_loop (in_img : List Nat) : Nat → Nat → List Nat → Option (List Nat)
  | _, 0, s => some s
  | i, n + 1, s =>
    match in_img[i]? with
    | none => none
    | some wide_data => read_burst_loop in_img (i + 1) n (unpack_pixels wide_data s)

/-- The function `read_and_grayscale`: the result is the grayscale stream after
the call. -/
def read_and_grayscale (in_img : List Nat) (stream_grayscale : List Nat)
    (total_bursts : Int) : Option (List Nat) :=
  read_burst_loop in_img 0 total_bursts.toNat stream_grayscale

/-! ## Sliding-window convolver -/

def S_KX : List (List Int) := [[-1, 0, 1], [-2, 0, 2], [-1, 0, 1]]

def S_KY : List (List Int) := [[1, 2, 1], [0, 0, 0], [-1, -2, -1]]

def MAG_SCALE_SHIFT : Nat := 1

/-- Entry `[kr][kc]` of a kernel table. -/
def kernel_at (t : List (List Int)) (kr kc : Nat) : Int := (t.getD kr []).getD kc 0

/-- State of `sobel_process` between two iterations of `SOBEL_PROCESS_LOOP`.
The field `emit_log` is a ghost: it records the loop counters `i` of the
iterations that executed `stream_edge_output.write`. -/
structure SobelState where
  line_buffer : List (List Nat)
  window : List (List Nat)
  stream_grayscale : List Nat
  stream_edge_output : List Nat
  emit_log : List Nat

/-- The loops `WINDOW_SHIFT_OUTER` / `WINDOW_SHIFT_INNER`. -/
def window_shift (window : List (List Nat)) : List (List Nat) :=
  (List.range KERNEL_SIZE).foldl
    (fun w k => (List.range (KERNEL_SIZE - 1)).foldl
      (fun w l => set2 w k l (get2 w k (l + 1))) w) window

/-- The loop that inserts the line-buffer column `col` into the window and
overwrites the line buffer: for `k = 0, 1` in this order,
`window[k][2] = line_buffer[k][col]; line_buffer[k][col] = window[k+1][2]`. -/
def column_insert (col : Nat) (wl : List (List Nat) × List (List Nat)) :
    List (List Nat) × List (List Nat) :=
  (List.range (KERNEL_SIZE - 1)).foldl
    (fun wl k =>
      let window := set2 wl.1 k (KERNEL_SIZE - 1) (get2 wl.2 k col)
      let line_buffer := set2 wl.2 k col (get2 window (k + 1) (KERNEL_SIZE - 1))
      (window, line_buffer)) wl

/-- The loops `CONVOLUTION_OUTER` / `CONVOLUTION_INNER` for one kernel table. -/
def convolve (window : List (List Nat)) (t : List (List Int)) : Int :=
  (List.range KERNEL_SIZE).foldl
    (fun acc kr => (List.range KERNEL_SIZE).foldl
      (fun acc kc => acc + (get2 window kr kc : Int) * kernel_at t kr kc) acc) 0

/-- The value `edge_pixel` computed from a window (lines 100-117). -/
def edge_pixel_of (window : List (List Nat)) : Nat :=
  let Gx := convolve window S_KX
  let Gy := convolve window S_KY
  let magnitude : Int := |Gx| + |Gy|
  let scaled_magnitude : Int := magnitude >>> MAG_SCALE_SHIFT
  ((if scaled_magnitude > 255 then 255
    else if scaled_magnitude < 0 then 0 else scaled_magnitude) % 2 ^ 8).toNat

/-- One iteration of `SOBEL_PROCESS_LOOP` with loop counter `i`.  There is no
result when the grayscale stream is empty, when `width` is zero (division by
zero) or when `col` is not an index of a line-buffer row. -/
def sobel_step (height width : Int) (i : Nat) (st : SobelState) : Option SobelState :=
  match st.stream_grayscale with
  | [] => none
  | gray_pixel :: rest =>
    if width = 0 then none
    else
      let row : Int := Int.tdiv i width
      let col : Int := Int.tmod i width
      if col < 0 ∨ (MAX_WIDTH : Int) ≤ col then none
      else
        let wl := column_insert col.toNat (window_shift st.window, st.line_buffer)
        let window := set2 wl.1 (KERNEL_SIZE - 1) (KERNEL_SIZE - 1) gray_pixel
        if row ≥ 1 ∧ col ≥ 1 ∧ row < height - 1 ∧ col < width - 1 then
          some { line_buffer := wl.2, window := window, stream_grayscale := rest,
                 stream_edge_output := st.stream_edge_output ++ [edge_pixel_of window],
                 emit_log := st.emit_log ++ [i] }
        else
          some { line_buffer := wl.2, window := window, stream_grayscale := rest,
                 stream_edge_output := st.stream_edge_output,
                 emit_log := st.emit_log }

/-- The loop `SOBEL_PROCESS_LOOP` from counter `i` with `n` iterations left. -/
def sobel_loop (height width : Int) : Nat → Nat → SobelState → Option SobelState
  | _, 0, st => some st
  | i, n + 1, st =>
    match sobel_step height width i st with
    | none => none
    | some st' => sobel_loop height width (i + 1) n st'

/-- The function `sobel_process`.  `window0 k l` is the content of the cell
`window[k][l]` on entry: the function does not initialise the local array
`window`.  Every cell of `line_buffer` is set to 0 by
`CLEAR_BUFFERS_LOOP_OUTER`. -/
def sobel_process (window0 : Nat → Nat → Nat) (stream_grayscale stream_edge_output : List Nat)
    (height width : Int) : Option SobelState :=
  let total_pixels := wrap32 (height * width)
  sobel_loop height width 0 total_pixels.toNat
    { line_buffer := List.replicate (KERNEL_SIZE - 1) (List.replicate MAX_WIDTH 0),
      window := array2 KERNEL_SIZE KERNEL_SIZE window0,
      stream_grayscale := stream_grayscale,
      stream_edge_output := stream_edge_output, emit_log := [] }

/-! ## Transport packer -/

/-- The operator `<<` of `PIXEL_TYPE`.  The shift operators of `ap_uint<W>`
return a value of the same width `W` as their left operand, so the bits shifted
beyond bit 7 are lost before any widening assignment. -/
def pixel_shl (edge_pixel sh : Nat) : Nat := (edge_pixel <<< sh) % 2 ^ 8

/-- The value `pixel_32` built from `edge_pixel` (line 142): the operator `|`
of two `ap_uint<8>` values is 8 bits wide; the result is converted to
`BUS_TYPE`. -/
def replicate_pixel (edge_pixel : Nat) : Nat :=
  (pixel_shl edge_pixel 16 ||| pixel_shl edge_pixel 8 ||| edge_pixel) % 2 ^ 32

/-- The assignment `wide_data((p + 1) * 32 - 1, p * 32) = pixel_32`: the bits
below and above the range are kept. -/
def set_slot (wide_data p pixel_32 : Nat) : Nat :=
  wide_data % 2 ^ (p * 32) + (pixel_32 % 2 ^ 32) * 2 ^ (p * 32)
    + (wide_data >>> ((p + 1) * 32)) * 2 ^ ((p + 1) * 32)

/-- Body of `PACK_PIXELS` for slot `p`, on the pair of `wide_data` and the edge
stream. -/
def pack_pixel (output_pixels_to_write current_pixel_index : Int)
    (ws : Nat × List Nat) (p : Nat) : Option (Nat × List Nat) :=
  if current_pixel_index + p < output_pixels_to_write then
    match ws.2 with
    | [] => none
    | edge_pixel :: rest => some (set_slot ws.1 p (replicate_pixel edge_pixel), rest)
  else some ws

/-- The loop `PACK_PIXELS`. -/
def pack_pixels (output_pixels_to_write current_pixel_index : Int)
    (ws : Nat × List Nat) : Option (Nat × List Nat) :=
  (List.range PIXELS_PER_BURST).foldlM
    (pack_pixel output_pixels_to_write current_pixel_index) ws

/-- The loop `WRITE_BURST_LOOP` from counter `i` with `n` iterations left, on
the pair of the write log of `out_img` and the edge stream. -/
def write_burst_loop (output_pixels_to_write : Int) :
    Nat → Nat → List (Nat × Nat) × List Nat → Option (List (Nat × Nat) × List Nat)
  | _, 0, os => some os
  | i, n + 1, os =>
    match pack_pixels output_pixels_to_write ((i : Int) * PIXELS_PER_BURST) (0, os.2) with
    | none => none
    | some ws => write_burst_loop output_pixels_to_write (i + 1) n (os.1 ++ [(i, ws.1)], ws.2)

/-- The function `write_and_pack`: the result is the log of the writes to
`out_img`, each `(i, word)` for `out_img[i] = word`, and the edge stream after
the call. -/
def write_and_pack (stream_edge_output : List Nat) (output_pixels_to_write : Int) :
    Option (List (Nat × Nat) × List Nat) :=
  let output_bursts :=
    Int.tdiv (wrap32 (output_pixels_to_write + PIXELS_PER_BURST - 1)) PIXELS_PER_BURST
  write_burst_loop output_pixels_to_write 0 output_bursts.toNat ([], stream_edge_output)

/-! ## The kernel `image_process` -/

/-- What a run of `image_process` leaves behind. -/
structure KernelResult where
  out_log : List (Nat × Nat)
  stream_grayscale : List Nat
  stream_edge_output : List Nat
  emit_log : List Nat

/-- The function `image_process`, the three stages run one after the other. -/
def image_process (window0 : Nat → Nat → Nat) (in_img : List Nat) (height width : Int) :
    Option KernelResult :=
  let total_pixels := wrap32 (height * width)
  let total_bursts :=
    Int.tdiv (wrap32 (total_pixels + PIXELS_PER_BURST - 1)) PIXELS_PER_BURST
  let output_pixels_to_write := wrap32 ((width - 2) * (height - 2))
  match read_and_grayscale in_img [] total_bursts with
  | none => none
  | some gray =>
    match sobel_process window0 gray [] height width with
    | none => none
    | some st =>
      match write_and_pack st.stream_edge_output output_pixels_to_write with
      | none => none
      | some os =>
        some { out_log := os.1, stream_grayscale := st.stream_grayscale,
               stream_edge_output := os.2, emit_log := st.emit_log }

/-! ## Reference notions used by the statements -/

/-- The test of line 98 on the loop counter `i`, for non-negative dimensions:
`row >= 1 && col >= 1 && row < height - 1 && col < width - 1` with
`row = i / width` and `col = i % width`. -/
def interior (height width i : Nat) : Bool :=
  decide (1 ≤ i / width ∧ 1 ≤ i % width ∧ i / width + 1 < height ∧ i % width + 1 < width)

/-- Stream index of the `k`-th interior pixel in row-major order: the pixel at
row `1 + k / (width - 2)` and column `1 + k % (width - 2)`. -/
def interior_index (width k : Nat) : Nat :=
  (1 + k / (width - 2)) * width + (1 + k % (width - 2))

/-- The 3x3 neighbourhood of the image `L[r][c] = g[r * width + c]` centred on
the pixel `(r, c)`, as a window: cell `[kr][kc]` holds `L[r-1+kr][c-1+kc]`. -/
def neighbourhood (g : List Nat) (width r c : Nat) : List (List Nat) :=
  array2 KERNEL_SIZE KERNEL_SIZE fun kr kc => g.getD ((r - 1 + kr) * width + (c - 1 + kc)) 0

/-! ## Closed forms of the state of `sobel_process` -/

/-- The window after steps 1-3 of an iteration (shift, column insert, new sample),
as a function of the cell: `wf` and `lf` are the window and the line buffer
before the iteration, `col` the column and `gray_pixel` the sample read. -/
def window_next (wf lf : Nat → Nat → Nat) (col gray_pixel : Nat) : Nat → Nat → Nat :=
  fun kr kc =>
    if kc < 2 then wf kr (kc + 1)
    else if kr = 0 then lf 0 col else if kr = 1 then lf 1 col else gray_pixel

/-- The line buffer after an iteration: the cell `[k][col]` receives the value
that `window[k+1][2]` held before the iteration. -/
def line_buffer_next (wf lf : Nat → Nat → Nat) (col : Nat) : Nat → Nat → Nat :=
  fun k c => if c = col then (if k = 0 then wf 1 2 else wf 2 2) else lf k c

/-- The value held by `window[2][2]` when the iteration with loop counter `i`
starts: the sample `s[i - 1]`, or the content on entry for `i = 0`. -/
def prev2 (window0 : Nat → Nat → Nat) (s : List Nat) (i : Nat) : Nat :=
  if i = 0 then window0 2 2 else s.getD (i - 1) 0

/-- The value that the iteration with loop counter `i` inserts into
`window[1][2]`: the content of `line_buffer[1][i % W]`. -/
def ins1 (window0 : Nat → Nat → Nat) (s : List Nat) (W i : Nat) : Nat :=
  if i < W then 0 else prev2 window0 s (i - W)

/-- The value held by `window[1][2]` when the iteration with loop counter `i`
starts. -/
def prev1 (window0 : Nat → Nat → Nat) (s : List Nat) (W i : Nat) : Nat :=
  if i = 0 then window0 1 2 else ins1 window0 s W (i - 1)

/-- The value that the iteration with loop counter `i` inserts into
`window[0][2]`: the content of `line_buffer[0][i % W]`. -/
def ins0 (window0 : Nat → Nat → Nat) (s : List Nat) (W i : Nat) : Nat :=
  if i < W then 0 else prev1 window0 s W (i - W)

/-- The value that the iteration with loop counter `i` inserts into
`window[kr][2]`, on the grayscale stream `s` and for width `W`. -/
def inserted (window0 : Nat → Nat → Nat) (s : List Nat) (W kr i : Nat) : Nat :=
  if kr = 0 then ins0 window0 s W i else if kr = 1 then ins1 window0 s W i else s.getD i 0

/-- The value that the iteration with loop counter `i` writes to
`line_buffer[k][i % W]`. -/
def evicted (window0 : Nat → Nat → Nat) (s : List Nat) (W k i : Nat) : Nat :=
  if k = 0 then prev1 window0 s W i else prev2 window0 s i

/-- Closed form of the window after `n` iterations: column `kc` holds what the
iteration with loop counter `n + kc - 3` inserted, or is still a column of the
content on entry. -/
def window_after (window0 : Nat → Nat → Nat) (s : List Nat) (W n : Nat) : Nat → Nat → Nat :=
  fun kr kc =>
    if 3 ≤ n + kc then inserted window0 s W kr (n + kc - 3) else window0 kr (kc + n)

/-- Closed form of the line buffer after `n` iterations: the cell `[k][c]`
holds what the last iteration at column `c` wrote, or the 0 of the clearing
loop. -/
def line_buffer_after (window0 : Nat → Nat → Nat) (s : List Nat) (W n : Nat) :
    Nat → Nat → Nat :=
  fun k c =>
    if c < W then
      if c < n % W then evicted window0 s W k (n - n % W + c)
      else if W ≤ n then evicted window0 s W k (n - n % W - W + c)
      else 0
    else 0

/-- The state of `sobel_process` after the first `n` iterations of
`SOBEL_PROCESS_LOOP`, that is when the iteration with loop counter `n` is
about to start. -/
def sobel_after (window0 : Nat → Nat → Nat) (stream_grayscale stream_edge_output : List Nat)
    (height width : Int) (n : Nat) : Option SobelState :=
  sobel_loop height width 0 n
    { line_buffer := List.replicate (KERNEL_SIZE - 1) (List.replicate MAX_WIDTH 0),
      window := array2 KERNEL_SIZE KERNEL_SIZE window0,
      stream_grayscale := stream_grayscale,
      stream_edge_output := stream_edge_output, emit_log := [] }

/-! ## Test bench (`test_image_process.cpp`) -/

/-- Body of the inner loop of `pack_image_data` for slot `p` of burst `i`, on
`wide_data`.  There is no result when `unpacked[pixel_idx]` is outside the
array. -/
def pack_slot (unpacked : List Nat) (i : Nat) (size : Int) (wide_data p : Nat) : Option Nat :=
  let pixel_idx : Int := (i : Int) * PIXELS_PER_BURST + p
  if pixel_idx < size then
    match unpacked[pixel_idx.toNat]? with
    | none => none
    | some v => some (set_slot wide_data p v)
  else some wide_data

/-- The outer loop of `pack_image_data` from counter `i` with `n` iterations
left, on the array `packed`. -/
def pack_loop (unpacked : List Nat) (size : Int) : Nat → Nat → List Nat → Option (List Nat)
  | _, 0, packed => some packed
  | i, n + 1, packed =>
    match (List.range PIXELS_PER_BURST).foldlM (pack_slot unpacked i size) 0 with
    | none => none
    | some wide_data =>
      if i < packed.length then pack_loop unpacked size (i + 1) n (packed.set i wide_data)
      else none

/-- The function `pack_image_data`: the result is the array `packed` after the
call. -/
def pack_image_data (unpacked packed : List Nat) (size : Int) : Option (List Nat) :=
  let total_bursts := Int.tdiv (wrap32 (size + PIXELS_PER_BURST - 1)) PIXELS_PER_BURST
  pack_loop unpacked size 0 total_bursts.toNat packed

/-- Body of the inner loop of `unpack_image_data` for slot `p` of burst `i`, on
the array `unpacked`.  There is no result when `unpacked[pixel_idx]` is outside
the array. -/
def unpack_slot (wide_data i : Nat) (size : Int) (unpacked : List Nat) (p : Nat) :
    Option (List Nat) :=
  let pixel_idx : Int := (i : Int) * PIXELS_PER_BURST + p
  if pixel_idx < size then
    if pixel_idx.toNat < unpacked.length then
      some (unpacked.set pixel_idx.toNat (slot wide_data p))
    else none
  else some unpacked

/-- The outer loop of `unpack_image_data` from counter `i` with `n` iterations
left, on the array `unpacked`. -/
def unpack_loop (packed : List Nat) (size : Int) : Nat → Nat → List Nat → Option (List Nat)
  | _, 0, unpacked => some unpacked
  | i, n + 1, unpacked =>
    match packed[i]? with
    | none => none
    | some wide_data =>
      match (List.range PIXELS_PER_BURST).foldlM (unpack_slot wide_data i size) unpacked with
      | none => none
      | some unpacked' => unpack_loop packed size (i + 1) n unpacked'

/-- The function `unpack_image_data`: the result is the array `unpacked` after
the call. -/
def unpack_image_data (packed unpacked : List Nat) (size : Int) : Option (List Nat) :=
  let total_bursts := Int.tdiv (wrap32 (size + PIXELS_PER_BURST - 1)) PIXELS_PER_BURST
  unpack_loop packed size 0 total_bursts.toNat unpacked

/-- The content of the array `out_img` after the writes of a log, starting
from the content `out_img`.  There is no result when a write is outside the
array. -/
def written_buffer (out_img : List Nat) (log : List (Nat × Nat)) : Option (List Nat) :=
  log.foldlM (fun b iw => if iw.1 < b.length then some (b.set iw.1 iw.2) else none) out_img

/-- The array `input_32bit` of `main`: pixel `i` is the grey value
`(val << 16) | (val << 8) | val` with `val = (unsigned char)(i % 256)`. -/
def test_input : List Nat :=
  (List.range (64 * 64)).map fun i =>
    let val := i % 256
    ((val <<< 16) ||| (val <<< 8) ||| val) % 2 ^ 32

/-- The value `output_32bit[0]` that `main` tests, for the content `window0` of
the kernel's window on entry.  The arrays allocated by `new` are taken filled
with 0; `input_wide` has `INPUT_BURSTS = 256` words, `output_wide` has
`OUTPUT_BURSTS = 241` words and `output_32bit` has `OUTPUT_SIZE = 3844`
slots. -/
def test_first_output (window0 : Nat → Nat → Nat) : Option Nat :=
  (pack_image_data test_input (List.replicate 256 0) (64 * 64)).bind fun input_wide =>
    (image_process window0 input_wide 64 64).bind fun r =>
      (written_buffer (List.replicate 241 0) r.out_log).bind fun output_wide =>
        (unpack_image_data output_wide (List.replicate 3844 0) ((64 - 2) * (64 - 2))).bind
          fun output_32bit => output_32bit[0]?

/-! ## Host buffers (`host_app.cpp`) -/

/-- The value `bo_size_bytes` of `process_image_fpga`, the size of each of
`bo_in` and `bo_out`: `size * sizeof(unsigned int)` with
`int size = height * width`. -/
def bo_size_bytes (height width : Int) : Int := wrap32 (height * width) * 4

/-- Number of whole transport words of 64 bytes inside a buffer of
`bo_size_bytes` bytes: the words that the kernel can access without leaving
the buffer. -/
def bo_words (height width : Int) : Nat := (bo_size_bytes height width / 64).toNat

/-! ## The convolver with every array access checked -/

/-- Read of the cell `[k][l]` of a two-dimensional array; there is no result
when an index is outside the array. -/
def get2_checked (a : List (List Nat)) (k l : Nat) : Option Nat :=
  match a[k]? with
  | none => none
  | some row => row[l]?

/-- Write of the cell `[k][l]` of a two-dimensional array; there is no result
when an index is outside the array. -/
def set2_checked (a : List (List Nat)) (k l v : Nat) : Option (List (List Nat)) :=
  match a[k]? with
  | none => none
  | some row => if l < row.length then some (a.set k (row.set l v)) else none

/-- Read of the entry `[kr][kc]` of a kernel table; there is no result when an
index is outside the table. -/
def kernel_at_checked (t : List (List Int)) (kr kc : Nat) : Option Int :=
  match t[kr]? with
  | none => none
  | some row => row[kc]?

/-- The loops `WINDOW_SHIFT_OUTER` / `WINDOW_SHIFT_INNER`, accesses checked. -/
def window_shift_checked (window : List (List Nat)) : Option (List (List Nat)) :=
  (List.range KERNEL_SIZE).foldlM
    (fun w k => (List.range (KERNEL_SIZE - 1)).foldlM
      (fun w l => (get2_checked w k (l + 1)).bind fun v => set2_checked w k l v) w) window

/-- The column-insert loop, accesses checked. -/
def column_insert_checked (col : Nat) (wl : List (List Nat) × List (List Nat)) :
    Option (List (List Nat) × List (List Nat)) :=
  (List.range (KERNEL_SIZE - 1)).foldlM
    (fun wl k =>
      (get2_checked wl.2 k col).bind fun v =>
        (set2_checked wl.1 k (KERNEL_SIZE - 1) v).bind fun window =>
          (get2_checked window (k + 1) (KERNEL_SIZE - 1)).bind fun v' =>
            (set2_checked wl.2 k col v').bind fun line_buffer =>
              some (window, line_buffer)) wl

/-- The loops `CONVOLUTION_OUTER` / `CONVOLUTION_INNER` for one kernel table,
accesses checked. -/
def convolve_checked (window : List (List Nat)) (t : List (List Int)) : Option Int :=
  (List.range KERNEL_SIZE).foldlM
    (fun acc kr => (List.range KERNEL_SIZE).foldlM
      (fun acc kc =>
        (get2_checked window kr kc).bind fun v =>
          (kernel_at_checked t kr kc).bind fun c => some (acc + (v : Int) * c)) acc) 0

/-- The value `edge_pixel` computed from a window, accesses checked. -/
def edge_pixel_checked (window : List (List Nat)) : Option Nat :=
  (convolve_checked window S_KX).bind fun Gx =>
    (convolve_checked window S_KY).bind fun Gy =>
      let magnitude : Int := |Gx| + |Gy|
      let scaled_magnitude : Int := magnitude >>> MAG_SCALE_SHIFT
      some ((if scaled_magnitude > 255 then 255
        else if scaled_magnitude < 0 then 0 else scaled_magnitude) % 2 ^ 8).toNat

/-- One iteration of `SOBEL_PROCESS_LOOP` with every access checked: there is
no result when the grayscale stream is empty, when `width` is zero (division
by zero) or when an index of `line_buffer`, `window`, `S_KX` or `S_KY` is
outside the array. -/
def sobel_step_checked (height width : Int) (i : Nat) (st : SobelState) :
    Option SobelState :=
  match st.stream_grayscale with
  | [] => none
  | gray_pixel :: rest =>
    if width = 0 then none
    else
      let row : Int := Int.tdiv i width
      let col : Int := Int.tmod i width
      if col < 0 then none
      else
        (window_shift_checked st.window).bind fun shifted =>
          (column_insert_checked col.toNat (shifted, st.line_buffer)).bind fun wl =>
            (set2_checked wl.1 (KERNEL_SIZE - 1) (KERNEL_SIZE - 1) gray_pixel).bind fun window =>
              if row ≥ 1 ∧ col ≥ 1 ∧ row < height - 1 ∧ col < width - 1 then
                (edge_pixel_checked window).bind fun edge_pixel =>
                  some { line_buffer := wl.2, window := window, stream_grayscale := rest,
                         stream_edge_output := st.stream_edge_output ++ [edge_pixel],
                         emit_log := st.emit_log ++ [i] }
              else
                some { line_buffer := wl.2, window := window, stream_grayscale := rest,
                       stream_edge_output := st.stream_edge_output,
                       emit_log := st.emit_log }

/-- The loop `SOBEL_PROCESS_LOOP` with every access checked. -/
def sobel_loop_checked (height width : Int) : Nat → Nat → SobelState → Option SobelState
  | _, 0, st => some st
  | i, n + 1, st =>
    match sobel_step_checked height width i st with
    | none => none
    | some st' => sobel_loop_checked height width (i + 1) n st'

/-- The function `sobel_process` with every access checked. -/
def sobel_process_checked (window0 : Nat → Nat → Nat)
    (stream_grayscale stream_edge_output : List Nat) (height width : Int) :
    Option SobelState :=
  let total_pixels := wrap32 (height * width)
  sobel_loop_checked height width 0 total_pixels.toNat
    { line_buffer := List.replicate (KERNEL_SIZE - 1) (List.replicate MAX_WIDTH 0),
      window := array2 KERNEL_SIZE KERNEL_SIZE window0,
      stream_grayscale := stream_grayscale,
      stream_edge_output := stream_edge_output, emit_log := [] }

/-! ## Lemmas on the control structure of `sobel_process` -/

theorem wrap32_of_lt (x : Int) (h0 : 0 ≤ x) (h1 : x < 2147483648) : wrap32 x = x := by
  unfold wrap32
  omega

theorem sobel_step_some (H W : Nat) (hW : 0 < W) (hW' : W ≤ MAX_WIDTH) (i : Nat)
    (st : SobelState) (x : Nat) (rest : List Nat) (hs : st.stream_grayscale = x :: rest) :
    ∃ st', sobel_step H W i st = some st' ∧ st'.stream_grayscale = rest ∧
      st'.emit_log = st.emit_log ++ (if interior H W i then [i] else []) ∧
      st'.stream_edge_output = st.stream_edge_output ++
        (if interior H W i then [edge_pixel_of st'.window] else []) := by
  have hW0 : (W : Int) ≠ 0 := by omega
  have hcol : ¬ (((i % W : Nat) : Int) < 0 ∨ (MAX_WIDTH : Int) ≤ ((i % W : Nat) : Int)) := by
    have := Nat.mod_lt i hW
    omega
  unfold sobel_step
  rw [hs]
  simp only [hW0, if_false, ← Int.ofNat_tdiv, ← Int.ofNat_tmod, hcol]
  by_cases hin : interior H W i = true
  · have hc : ((i / W : Nat) : Int) ≥ 1 ∧ ((i % W : Nat) : Int) ≥ 1 ∧
        ((i / W : Nat) : Int) < (H : Int) - 1 ∧ ((i % W : Nat) : Int) < (W : Int) - 1 := by
      simp only [interior, decide_eq_true_eq] at hin
      omega
    rw [if_pos hc]
    exact ⟨_, rfl, rfl, by simp [hin], by simp [hin]⟩
  · have hc : ¬ (((i / W : Nat) : Int) ≥ 1 ∧ ((i % W : Nat) : Int) ≥ 1 ∧
        ((i / W : Nat) : Int) < (H : Int) - 1 ∧ ((i % W : Nat) : Int) < (W : Int) - 1) := by
      simp only [interior, decide_eq_true_eq] at hin
      omega
    rw [if_neg hc]
    exact ⟨_, rfl, rfl, by simp [hin], by simp [hin]⟩

theorem sobel_loop_some (H W : Nat) (hW : 0 < W) (hW' : W ≤ MAX_WIDTH) (n : Nat) :
    ∀ (i : Nat) (st : SobelState), n ≤ st.stream_grayscale.length →
      ∃ st', sobel_loop H W i n st = some st' ∧
        st'.stream_grayscale = st.stream_grayscale.drop n ∧
        st'.emit_log = st.emit_log ++ (List.range' i n).filter (interior H W) ∧
        ∃ written, st'.stream_edge_output = st.stream_edge_output ++ written ∧
          written.length = ((List.range' i n).filter (interior H W)).length := by
  induction n with
  | zero => intro i st _; exact ⟨st, rfl, by simp, by simp, [], by simp, by simp⟩
  | succ n ih =>
    intro i st hlen
    cases hs : st.stream_grayscale with
    | nil => rw [hs] at hlen; simp at hlen
    | cons x rest =>
      obtain ⟨st1, h1, h2, h3, h4⟩ := sobel_step_some H W hW hW' i st x rest hs
      have hlen1 : n ≤ st1.stream_grayscale.length := by
        rw [h2]; rw [hs] at hlen; simpa using hlen
      obtain ⟨st2, g1, g2, g3, wr, g4, g5⟩ := ih (i + 1) st1 hlen1
      refine ⟨st2, ?_, ?_, ?_,
        (if interior H W i then [edge_pixel_of st1.window] else []) ++ wr, ?_, ?_⟩
      · simp only [sobel_loop, h1, g1]
      · rw [g2, h2]; simp
      · rw [g3, h3, List.range'_succ, List.filter_cons]
        by_cases hin : interior H W i = true <;> simp [hin]
      · rw [g4, h4, List.append_assoc]
      · rw [List.range'_succ, List.filter_cons]
        by_cases hin : interior H W i = true <;> simp [hin, g5]

/-- A run of `sobel_process` on non-negative dimensions whose product fits in
an `int`, with at least `height * width` samples in the grayscale stream. -/
theorem sobel_process_some (window0 : Nat → Nat → Nat) (H W : Nat) (hW : 0 < W)
    (hW' : W ≤ MAX_WIDTH) (hrep : H * W < 2147483648) (g rest out : List Nat)
    (hg : g.length = H * W) :
    ∃ st, sobel_process window0 (g ++ rest) out H W = some st ∧
      st.stream_grayscale = rest ∧
      st.emit_log = (List.range (H * W)).filter (interior H W) ∧
      ∃ written, st.stream_edge_output = out ++ written ∧
        written.length = st.emit_log.length := by
  have hwr : wrap32 ((H : Int) * (W : Int)) = ((H * W : Nat) : Int) := by
    rw [wrap32_of_lt] <;> push_cast <;> [rfl; positivity; exact_mod_cast hrep]
  obtain ⟨st, h1, h2, h3, wr, h4, h5⟩ := sobel_loop_some H W hW hW' (H * W) 0
    { line_buffer := List.replicate (KERNEL_SIZE - 1) (List.replicate MAX_WIDTH 0),
      window := array2 KERNEL_SIZE KERNEL_SIZE window0,
      stream_grayscale := g ++ rest, stream_edge_output := out, emit_log := [] }
    (by simp [hg])
  refine ⟨st, ?_, ?_, ?_, wr, h4, ?_⟩
  · unfold sobel_process
    rw [hwr]
    exact h1
  · rw [h2]; simp [← hg]
  · rw [h3, List.range_eq_range']; simp
  · rw [h5, h3]; simp

/-! ## Lemmas on the interior indices -/

theorem interior_index_lt (W : Nat) (hW : 3 ≤ W) (a b : Nat) (hab : a < b) :
    interior_index W a < interior_index W b := by
  unfold interior_index
  have hm : 0 < W - 2 := by omega
  have ha := Nat.mod_lt a hm
  have hb := Nat.mod_lt b hm
  have hda := Nat.div_add_mod a (W - 2)
  have hdb := Nat.div_add_mod b (W - 2)
  have hq : a / (W - 2) ≤ b / (W - 2) := Nat.div_le_div_right (Nat.le_of_lt hab)
  rcases Nat.eq_or_lt_of_le hq with h | h
  · rw [h] at hda ⊢
    have : a % (W - 2) < b % (W - 2) := by
      have : (W - 2) * (b / (W - 2)) + a % (W - 2) < (W - 2) * (b / (W - 2)) + b % (W - 2) := by
        omega
      omega
    omega
  · have h1 : (1 + a / (W - 2) + 1) * W ≤ (1 + b / (W - 2)) * W :=
      Nat.mul_le_mul_right W (by omega)
    have h2 : (1 + a / (W - 2) + 1) * W = (1 + a / (W - 2)) * W + W := by ring
    omega

theorem interior_index_div_mod (W : Nat) (hW : 3 ≤ W) (k : Nat) :
    interior_index W k / W = 1 + k / (W - 2) ∧ interior_index W k % W = 1 + k % (W - 2) := by
  unfold interior_index
  have hm : 0 < W - 2 := by omega
  have hr := Nat.mod_lt k hm
  have hlt : 1 + k % (W - 2) < W := by omega
  constructor
  · rw [Nat.add_comm, Nat.add_mul_div_right _ _ (by omega : 0 < W), Nat.div_eq_of_lt hlt]
    omega
  · rw [Nat.add_comm, Nat.add_mul_mod_self_right, Nat.mod_eq_of_lt hlt]

theorem mem_interior_iff (H W : Nat) (hH : 3 ≤ H) (hW : 3 ≤ W) (i : Nat) :
    (i < H * W ∧ interior H W i = true) ↔
      ∃ k, k < (H - 2) * (W - 2) ∧ interior_index W k = i := by
  have hm : 0 < W - 2 := by omega
  constructor
  · rintro ⟨_, hin⟩
    simp only [interior, decide_eq_true_eq] at hin
    obtain ⟨h1, h2, h3, h4⟩ := hin
    refine ⟨(i / W - 1) * (W - 2) + (i % W - 1), ?_, ?_⟩
    · have : (i / W - 1 + 1) * (W - 2) ≤ (H - 2) * (W - 2) :=
        Nat.mul_le_mul_right _ (by omega)
      have e : (i / W - 1 + 1) * (W - 2) = (i / W - 1) * (W - 2) + (W - 2) := by ring
      omega
    · unfold interior_index
      have hr : i % W - 1 < W - 2 := by omega
      have e1 : ((i / W - 1) * (W - 2) + (i % W - 1)) / (W - 2) = i / W - 1 := by
        rw [Nat.add_comm, Nat.add_mul_div_right _ _ hm, Nat.div_eq_of_lt hr]; omega
      have e2 : ((i / W - 1) * (W - 2) + (i % W - 1)) % (W - 2) = i % W - 1 := by
        rw [Nat.add_comm, Nat.add_mul_mod_self_right, Nat.mod_eq_of_lt hr]
      rw [e1, e2]
      have e3 : 1 + (i / W - 1) = i / W := by omega
      have e4 : 1 + (i % W - 1) = i % W := by omega
      rw [e3, e4, Nat.mul_comm]
      exact Nat.div_add_mod i W
  · rintro ⟨k, hk, rfl⟩
    obtain ⟨e1, e2⟩ := interior_index_div_mod W hW k
    have hq : k / (W - 2) < H - 2 := by
      rw [Nat.div_lt_iff_lt_mul hm]; exact hk
    have hr := Nat.mod_lt k hm
    constructor
    · have h1 : (1 + k / (W - 2) + 1) * W ≤ H * W := Nat.mul_le_mul_right W (by omega)
      have h2 : (1 + k / (W - 2) + 1) * W = (1 + k / (W - 2)) * W + W := by ring
      unfold interior_index
      omega
    · simp only [interior, decide_eq_true_eq, e1, e2]
      generalize k / (W - 2) = q at hq
      generalize k % (W - 2) = r at hr
      omega

theorem filter_interior_eq (H W : Nat) (hH : 3 ≤ H) (hW : 3 ≤ W) :
    (List.range (H * W)).filter (interior H W) =
      (List.range ((H - 2) * (W - 2))).map (interior_index W) := by
  have s1 : List.Sorted (· < ·) ((List.range (H * W)).filter (interior H W)) :=
    (List.sorted_lt_range _).filter _
  have s2 : List.Sorted (· < ·) ((List.range ((H - 2) * (W - 2))).map (interior_index W)) :=
    List.Pairwise.map _ (fun a b hab => interior_index_lt W hW a b hab) (List.pairwise_lt_range _)
  refine List.eq_of_perm_of_sorted ?_ s1.le_of_lt s2.le_of_lt
  rw [List.perm_ext_iff_of_nodup s1.nodup s2.nodup]
  intro i
  rw [List.mem_filter, List.mem_range, List.mem_map]
  rw [mem_interior_iff H W hH hW i]
  constructor
  · rintro ⟨k, hk, rfl⟩; exact ⟨k, List.mem_range.mpr hk, rfl⟩
  · rintro ⟨k, hk, rfl⟩; exact ⟨k, List.mem_range.mp hk, rfl⟩

theorem filter_interior_nil (H W : Nat) (h : H < 3 ∨ W < 3) (l : List Nat) :
    l.filter (interior H W) = [] := by
  rw [List.filter_eq_nil_iff]
  intro i _
  simp only [interior, decide_eq_true_eq]
  omega

/-! ## Claims on the sliding-window convolver -/

/-- C2: for every `height` (in particular `height >= 1`), `1 <= width <= 4096`
with `height * width` representable as `int`, and a grayscale stream that
starts with `height * width` samples, `sobel_process` returns, has consumed
exactly these `height * width` samples (what follows them is left in the
stream) and has written `(height - 2) * (width - 2)` samples to the edge
stream when `height >= 3` and `width >= 3`, and none otherwise. -/
theorem sobel_process_sample_counts (window0 : Nat → Nat → Nat) (height width : Nat)
    (hw : 1 ≤ width) (hmax : width ≤ 4096)
    (hrep : height * width < 2147483648) (g rest out : List Nat)
    (hg : g.length = height * width) :
    ∃ st, sobel_process window0 (g ++ rest) out height width = some st ∧
      st.stream_grayscale = rest ∧
      ∃ written, st.stream_edge_output = out ++ written ∧
        written.length =
          if 3 ≤ height ∧ 3 ≤ width then (height - 2) * (width - 2) else 0 := by
  obtain ⟨st, h1, h2, h3, wr, h4, h5⟩ :=
    sobel_process_some window0 height width hw hmax hrep g rest out hg
  refine ⟨st, h1, h2, wr, h4, ?_⟩
  rw [h5, h3]
  by_cases hc : 3 ≤ height ∧ 3 ≤ width
  · rw [if_pos hc, filter_interior_eq height width hc.1 hc.2]
    simp
  · rw [if_neg hc, filter_interior_nil height width (by omega)]
    rfl

/-- Witness of C2 on a 3x4 image followed by one more sample in the stream. -/
theorem sobel_process_sample_counts_witness :
    ∃ st, sobel_process (fun _ _ => 0) ([1, 2, 3, 4, 5, 6, 7, 8, 9, 10, 11, 12] ++ [13]) []
        ((3 : Nat) : Int) ((4 : Nat) : Int) = some st ∧
      st.stream_grayscale = [13] ∧
      ∃ written, st.stream_edge_output = [] ++ written ∧
        written.length = if 3 ≤ 3 ∧ 3 ≤ 4 then (3 - 2) * (4 - 2) else 0 :=
  sobel_process_sample_counts (fun _ _ => 0) 3 4 (by decide) (by decide) (by decide)
    [1, 2, 3, 4, 5, 6, 7, 8, 9, 10, 11, 12] [13] [] (by decide)

/-- C3: for every `height` (in particular `height >= 1`), `1 <= width <= 4096`
(and `height * width` representable as `int`), `sobel_process` writes a sample
during the iteration with loop counter `i < height * width` if and only if
`1 <= i / width <= height - 2` and `1 <= i % width <= width - 2`; no write
happens at row 0, row `height - 1`, column 0 or column `width - 1`; there is
one write per logged iteration, and for `height, width >= 3` the `k`-th write
happens at row `1 + k / (width - 2)` and column `1 + k % (width - 2)`. -/
theorem sobel_process_emit_positions (window0 : Nat → Nat → Nat) (height width : Nat)
    (hw : 1 ≤ width) (hmax : width ≤ 4096)
    (hrep : height * width < 2147483648) (g rest out : List Nat)
    (hg : g.length = height * width) :
    ∃ st, sobel_process window0 (g ++ rest) out height width = some st ∧
      (∀ i, i < height * width →
        (i ∈ st.emit_log ↔
          (1 ≤ i / width ∧ i / width + 2 ≤ height ∧ 1 ≤ i % width ∧ i % width + 2 ≤ width))) ∧
      (∀ i ∈ st.emit_log, i < height * width ∧ i / width ≠ 0 ∧ i / width ≠ height - 1 ∧
        i % width ≠ 0 ∧ i % width ≠ width - 1) ∧
      (∃ written, st.stream_edge_output = out ++ written ∧
        written.length = st.emit_log.length) ∧
      (3 ≤ height → 3 ≤ width → ∀ k, k < (height - 2) * (width - 2) →
        st.emit_log[k]? =
          some ((1 + k / (width - 2)) * width + (1 + k % (width - 2)))) := by
  obtain ⟨st, h1, _, h3, hwr⟩ :=
    sobel_process_some window0 height width hw hmax hrep g rest out hg
  refine ⟨st, h1, ?_, ?_, hwr, ?_⟩
  · intro i hi
    rw [h3, List.mem_filter, List.mem_range]
    simp only [interior, decide_eq_true_eq]
    omega
  · intro i hi
    rw [h3, List.mem_filter, List.mem_range] at hi
    obtain ⟨hlt, hin⟩ := hi
    simp only [interior, decide_eq_true_eq] at hin
    omega
  · intro h3h h3w k hk
    rw [h3, filter_interior_eq height width h3h h3w]
    simp [hk, interior_index]

/-- Witness of C3 on a 3x4 image. -/
theorem sobel_process_emit_positions_witness :
    ∃ st, sobel_process (fun _ _ => 0) ([1, 2, 3, 4, 5, 6, 7, 8, 9, 10, 11, 12] ++ []) []
        ((3 : Nat) : Int) ((4 : Nat) : Int) = some st ∧
      (∀ i, i < 3 * 4 →
        (i ∈ st.emit_log ↔
          (1 ≤ i / 4 ∧ i / 4 + 2 ≤ 3 ∧ 1 ≤ i % 4 ∧ i % 4 + 2 ≤ 4))) ∧
      (∀ i ∈ st.emit_log, i < 3 * 4 ∧ i / 4 ≠ 0 ∧ i / 4 ≠ 3 - 1 ∧
        i % 4 ≠ 0 ∧ i % 4 ≠ 4 - 1) ∧
      (∃ written, st.stream_edge_output = [] ++ written ∧
        written.length = st.emit_log.length) ∧
      (3 ≤ 3 → 3 ≤ 4 → ∀ k, k < (3 - 2) * (4 - 2) →
        st.emit_log[k]? = some ((1 + k / (4 - 2)) * 4 + (1 + k % (4 - 2)))) :=
  sobel_process_emit_positions (fun _ _ => 0) 3 4 (by decide) (by decide) (by decide)
    [1, 2, 3, 4, 5, 6, 7, 8, 9, 10, 11, 12] [] [] (by decide)

theorem convolve_S_KX (w : List (List Nat)) :
    convolve w S_KX =
      ((get2 w 0 2 : Int) - get2 w 0 0) + 2 * ((get2 w 1 2 : Int) - get2 w 1 0)
        + ((get2 w 2 2 : Int) - get2 w 2 0) := by
  simp [convolve, S_KX, kernel_at, KERNEL_SIZE, List.range, List.range.loop]
  ring

theorem convolve_S_KY (w : List (List Nat)) :
    convolve w S_KY =
      ((get2 w 0 0 : Int) + 2 * get2 w 0 1 + get2 w 0 2)
        - ((get2 w 2 0 : Int) + 2 * get2 w 2 1 + get2 w 2 2) := by
  simp [convolve, S_KY, kernel_at, KERNEL_SIZE, List.range, List.range.loop]
  ring

theorem edge_pixel_of_eq_min (w : List (List Nat)) :
    (edge_pixel_of w : Int) =
      min 255 ((|convolve w S_KX| + |convolve w S_KY|) >>> MAG_SCALE_SHIFT) := by
  unfold edge_pixel_of
  simp only [MAG_SCALE_SHIFT, Int.shiftRight_eq_div_pow]
  have h0 : 0 ≤ |convolve w S_KX| + |convolve w S_KY| := by positivity
  generalize |convolve w S_KX| + |convolve w S_KY| = m at h0
  norm_num
  split_ifs <;> omega

/-- C5: for every 3x3 window of samples in 0..255 the gradients satisfy
`|Gx| <= 1020` and `|Gy| <= 1020`, the halved sum `(|Gx| + |Gy|) >> 1` is not
negative (the arm `scaled_magnitude < 0` of the clamp is never taken), and the
emitted value is `min(255, (|Gx| + |Gy|) >> 1)`, which lies in `[0, 255]`; the
upper arm is needed: some such window has a halved sum above 255. -/
theorem edge_pixel_saturation :
    (∀ w : List (List Nat), (∀ kr kc, kr < 3 → kc < 3 → get2 w kr kc ≤ 255) →
      |convolve w S_KX| ≤ 1020 ∧ |convolve w S_KY| ≤ 1020 ∧
      ¬ ((|convolve w S_KX| + |convolve w S_KY|) >>> MAG_SCALE_SHIFT < 0) ∧
      (edge_pixel_of w : Int) =
        min 255 ((|convolve w S_KX| + |convolve w S_KY|) >>> MAG_SCALE_SHIFT) ∧
      edge_pixel_of w ≤ 255) ∧
    (∃ w : List (List Nat), (∀ kr kc, kr < 3 → kc < 3 → get2 w kr kc ≤ 255) ∧
      (|convolve w S_KX| + |convolve w S_KY|) >>> MAG_SCALE_SHIFT > 255) := by
  constructor
  · intro w hb
    have h00 := hb 0 0 (by decide) (by decide)
    have h01 := hb 0 1 (by decide) (by decide)
    have h02 := hb 0 2 (by decide) (by decide)
    have h10 := hb 1 0 (by decide) (by decide)
    have h12 := hb 1 2 (by decide) (by decide)
    have h20 := hb 2 0 (by decide) (by decide)
    have h21 := hb 2 1 (by decide) (by decide)
    have h22 := hb 2 2 (by decide) (by decide)
    have hx : |convolve w S_KX| ≤ 1020 := by
      rw [convolve_S_KX, abs_le]; omega
    have hy : |convolve w S_KY| ≤ 1020 := by
      rw [convolve_S_KY, abs_le]; omega
    have hm := edge_pixel_of_eq_min w
    have h0 : 0 ≤ |convolve w S_KX| + |convolve w S_KY| := by positivity
    have hs : 0 ≤ (|convolve w S_KX| + |convolve w S_KY|) >>> MAG_SCALE_SHIFT := by
      rw [Int.shiftRight_eq_div_pow]
      exact Int.ediv_nonneg h0 (by positivity)
    refine ⟨hx, hy, by omega, hm, ?_⟩
    have : (edge_pixel_of w : Int) ≤ 255 := by rw [hm]; exact min_le_left _ _
    exact_mod_cast this
  · refine ⟨[[0, 0, 255], [0, 0, 255], [0, 0, 255]], ?_, by decide⟩
    intro kr kc hkr hkc
    interval_cases kr <;> interval_cases kc <;> decide

/-- Witness of C5 on the window of a vertical step edge. -/
theorem edge_pixel_saturation_witness :
    |convolve [[0, 0, 255], [0, 0, 255], [0, 0, 255]] S_KX| ≤ 1020 ∧
    |convolve [[0, 0, 255], [0, 0, 255], [0, 0, 255]] S_KY| ≤ 1020 ∧
    ¬ ((|convolve [[0, 0, 255], [0, 0, 255], [0, 0, 255]] S_KX|
        + |convolve [[0, 0, 255], [0, 0, 255], [0, 0, 255]] S_KY|) >>> MAG_SCALE_SHIFT < 0) ∧
    (edge_pixel_of [[0, 0, 255], [0, 0, 255], [0, 0, 255]] : Int) =
      min 255 ((|convolve [[0, 0, 255], [0, 0, 255], [0, 0, 255]] S_KX|
        + |convolve [[0, 0, 255], [0, 0, 255], [0, 0, 255]] S_KY|) >>> MAG_SCALE_SHIFT) ∧
    edge_pixel_of [[0, 0, 255], [0, 0, 255], [0, 0, 255]] ≤ 255 :=
  edge_pixel_saturation.1 [[0, 0, 255], [0, 0, 255], [0, 0, 255]]
    (by intro kr kc hkr hkc; interval_cases kr <;> interval_cases kc <;> decide)

/-! ## Claims on the luma converter -/

theorem grayscale_weighted_eq (r g b : Nat) (hr : r ≤ 255) (hg : g ≤ 255) (hb : b ≤ 255) :
    grayscale_weighted r g b = (r * 77 + g * 150 + b * 29) / 256 := by
  unfold grayscale_weighted
  rw [Nat.shiftRight_eq_div_pow]
  omega

/-- C7: for all `R, G, B` in 0..255 the exact integer
`(R * 77 + G * 150 + B * 29) >> 8` lies in `[0, 255]`, so the conversion to
the 8-bit `PIXEL_TYPE` in `grayscale_weighted` loses no bits: the result is
that integer. -/
theorem grayscale_weighted_bounded (r g b : Nat) (hr : r ≤ 255) (hg : g ≤ 255)
    (hb : b ≤ 255) :
    (r * 77 + g * 150 + b * 29) >>> 8 ≤ 255 ∧
      grayscale_weighted r g b = (r * 77 + g * 150 + b * 29) >>> 8 := by
  unfold grayscale_weighted
  rw [Nat.shiftRight_eq_div_pow]
  omega

/-- Witness of C7 on the brightest pixel. -/
theorem grayscale_weighted_bounded_witness :
    (255 * 77 + 255 * 150 + 255 * 29) >>> 8 ≤ 255 ∧
      grayscale_weighted 255 255 255 = (255 * 77 + 255 * 150 + 255 * 29) >>> 8 :=
  grayscale_weighted_bounded 255 255 255 (by decide) (by decide) (by decide)

theorem and_255 (x : Nat) : x &&& 0xFF = x % 256 :=
  Nat.and_pow_two_sub_one_eq_mod x 8

theorem unpack_pixel_eq (wide_data p : Nat) :
    unpack_pixel wide_data p =
      (((wide_data / 2 ^ (32 * p)) % 2 ^ 32 / 2 ^ 16 % 256) * 77
        + ((wide_data / 2 ^ (32 * p)) % 2 ^ 32 / 2 ^ 8 % 256) * 150
        + ((wide_data / 2 ^ (32 * p)) % 2 ^ 32 % 256) * 29) / 256 := by
  unfold unpack_pixel slot
  simp only [and_255, Nat.shiftRight_eq_div_pow, Nat.mul_comm p 32]
  rw [grayscale_weighted_eq]
  · exact Nat.le_of_lt_succ (Nat.mod_lt _ (by decide))
  · exact Nat.le_of_lt_succ (Nat.mod_lt _ (by decide))
  · exact Nat.le_of_lt_succ (Nat.mod_lt _ (by decide))

theorem unpack_pixels_eq (wide_data : Nat) (s : List Nat) :
    unpack_pixels wide_data s =
      s ++ (List.range PIXELS_PER_BURST).map (unpack_pixel wide_data) := by
  unfold unpack_pixels
  generalize List.range PIXELS_PER_BURST = l
  induction l generalizing s with
  | nil => simp
  | cons a l ih => simp [List.foldl_cons, ih]

theorem read_burst_loop_some (in_img : List Nat) (n : Nat) :
    ∀ (i : Nat) (s : List Nat), i + n ≤ in_img.length →
      ∃ samples, read_burst_loop in_img i n s = some (s ++ samples) ∧
        samples.length = 16 * n ∧
        ∀ k, k < 16 * n →
          samples[k]? = some (unpack_pixel (in_img.getD (i + k / 16) 0) (k % 16)) := by
  induction n with
  | zero => intro i s _; exact ⟨[], by simp [read_burst_loop], rfl, by intro k hk; omega⟩
  | succ n ih =>
    intro i s hlen
    have hi : i < in_img.length := by omega
    obtain ⟨samples, h1, h2, h3⟩ := ih (i + 1) (unpack_pixels in_img[i] s) (by omega)
    refine ⟨(List.range PIXELS_PER_BURST).map (unpack_pixel in_img[i]) ++ samples, ?_, ?_, ?_⟩
    · rw [unpack_pixels_eq, List.append_assoc] at h1
      simp only [read_burst_loop, List.getElem?_eq_getElem hi, unpack_pixels_eq, h1]
    · simp [h2, PIXELS_PER_BURST, WIDE_BUS_WIDTH]; omega
    · intro k hk
      by_cases hk16 : k < 16
      · rw [List.getElem?_append_left (by simp [PIXELS_PER_BURST, WIDE_BUS_WIDTH]; exact hk16)]
        have e1 : k / 16 = 0 := by omega
        have e2 : k % 16 = k := by omega
        rw [e1, e2]
        simp [PIXELS_PER_BURST, WIDE_BUS_WIDTH, hk16, List.getD_eq_getElem?_getD,
          List.getElem?_eq_getElem hi]
      · rw [List.getElem?_append_right (by simp [PIXELS_PER_BURST, WIDE_BUS_WIDTH]; omega)]
        have e0 : ((List.range PIXELS_PER_BURST).map (unpack_pixel in_img[i])).length = 16 := by
          simp [PIXELS_PER_BURST, WIDE_BUS_WIDTH]
        rw [e0, h3 (k - 16) (by omega)]
        have e1 : i + 1 + (k - 16) / 16 = i + k / 16 := by omega
        have e2 : (k - 16) % 16 = k % 16 := by omega
        rw [e1, e2]

theorem unpack_pixel_low24 (wide_data p : Nat) :
    unpack_pixel wide_data p =
      ((slot wide_data p % 2 ^ 24 / 2 ^ 16) * 77 + (slot wide_data p % 2 ^ 24 / 2 ^ 8 % 256) * 150
        + (slot wide_data p % 2 ^ 24 % 256) * 29) / 256 := by
  rw [unpack_pixel_eq]
  unfold slot
  rw [Nat.shiftRight_eq_div_pow, Nat.mul_comm p 32]
  generalize wide_data / 2 ^ (32 * p) % 2 ^ 32 = t
  have e1 : t / 2 ^ 16 % 256 = t % 2 ^ 24 / 2 ^ 16 := by omega
  have e2 : t / 2 ^ 8 % 256 = t % 2 ^ 24 / 2 ^ 8 % 256 := by omega
  have e3 : t % 256 = t % 2 ^ 24 % 256 := by omega
  rw [e1, e2, e3]

/-- C6: for an array `in_img` of `n` transport words, `read_and_grayscale`
returns and appends to the stream `16 * n` samples; the `k`-th of them is
`(R * 77 + G * 150 + B * 29) >> 8`, where `R`, `G`, `B` are bits 23:16, 15:8
and 7:0 of the 32-bit slot `k % 16` (bits `32 * (k % 16)` and up) of word
`k / 16`; the sample of a slot is the same for two words whose slots agree on
bits 23:0, so bits 31:24 of a slot have no influence. -/
theorem read_and_grayscale_samples (n : Nat) (in_img stream : List Nat)
    (hn : in_img.length = n) :
    (∃ samples, read_and_grayscale in_img stream n = some (stream ++ samples) ∧
      samples.length = 16 * n ∧
      ∀ k, k < 16 * n →
        samples[k]? = some
          (((in_img.getD (k / 16) 0 / 2 ^ (32 * (k % 16)) % 2 ^ 32 / 2 ^ 16 % 2 ^ 8) * 77
            + (in_img.getD (k / 16) 0 / 2 ^ (32 * (k % 16)) % 2 ^ 32 / 2 ^ 8 % 2 ^ 8) * 150
            + (in_img.getD (k / 16) 0 / 2 ^ (32 * (k % 16)) % 2 ^ 32 % 2 ^ 8) * 29) >>> 8)) ∧
    (∀ w w' p, slot w p % 2 ^ 24 = slot w' p % 2 ^ 24 → unpack_pixel w p = unpack_pixel w' p) := by
  constructor
  · obtain ⟨samples, h1, h2, h3⟩ := read_burst_loop_some in_img n 0 stream (by omega)
    refine ⟨samples, ?_, h2, ?_⟩
    · unfold read_and_grayscale
      simpa using h1
    · intro k hk
      rw [h3 k hk, unpack_pixel_eq, Nat.shiftRight_eq_div_pow]
      simp
  · intro w w' p h
    rw [unpack_pixel_low24, unpack_pixel_low24, h]

/-- Witness of C6 on one transport word. -/
theorem read_and_grayscale_samples_witness :
    (∃ samples, read_and_grayscale [0x00102030] [] ((1 : Nat) : Int) = some ([] ++ samples) ∧
      samples.length = 16 * 1 ∧
      ∀ k, k < 16 * 1 →
        samples[k]? = some
          ((([0x00102030].getD (k / 16) 0 / 2 ^ (32 * (k % 16)) % 2 ^ 32 / 2 ^ 16 % 2 ^ 8) * 77
            + ([0x00102030].getD (k / 16) 0 / 2 ^ (32 * (k % 16)) % 2 ^ 32 / 2 ^ 8 % 2 ^ 8) * 150
            + ([0x00102030].getD (k / 16) 0 / 2 ^ (32 * (k % 16)) % 2 ^ 32 % 2 ^ 8) * 29)
              >>> 8)) ∧
    (∀ w w' p, slot w p % 2 ^ 24 = slot w' p % 2 ^ 24 → unpack_pixel w p = unpack_pixel w' p) :=
  read_and_grayscale_samples 1 [0x00102030] [] (by decide)

/-! ## Lemmas on transport words and on the transport packer -/

theorem testBit_set_slot (w p v i : Nat) :
    (set_slot w p v).testBit i =
      if i < p * 32 then w.testBit i
      else if i - p * 32 < 32 then v.testBit (i - p * 32)
      else w.testBit i := by
  have e : set_slot w p v =
      2 ^ (p * 32) * (2 ^ 32 * (w >>> ((p + 1) * 32)) + v % 2 ^ 32) + w % 2 ^ (p * 32) := by
    unfold set_slot
    have : (2 : Nat) ^ ((p + 1) * 32) = 2 ^ (p * 32) * 2 ^ 32 := by
      rw [← Nat.pow_add]; congr 1; omega
    rw [this]; ring
  rw [e, Nat.testBit_mul_pow_two_add _ (Nat.mod_lt _ (by positivity)),
    Nat.testBit_mul_pow_two_add _ (Nat.mod_lt _ (by positivity))]
  by_cases h1 : i < p * 32
  · simp [h1]
  · rw [if_neg h1, if_neg h1]
    by_cases h2 : i - p * 32 < 32
    · rw [if_pos h2, if_pos h2, Nat.testBit_mod_two_pow]
      simp [h2]
    · rw [if_neg h2, if_neg h2, Nat.testBit_shiftRight]
      congr 1; omega

theorem testBit_slot (w q j : Nat) :
    (slot w q).testBit j = (decide (j < 32) && w.testBit (q * 32 + j)) := by
  unfold slot
  rw [Nat.testBit_mod_two_pow, Nat.testBit_shiftRight]

theorem slot_set_slot (w p v q : Nat) :
    slot (set_slot w p v) q = if q = p then v % 2 ^ 32 else slot w q := by
  apply Nat.eq_of_testBit_eq
  intro j
  rw [testBit_slot, testBit_set_slot]
  by_cases hq : q = p
  · subst hq
    rw [if_pos rfl, Nat.testBit_mod_two_pow]
    by_cases hj : j < 32
    · have h1 : ¬ (q * 32 + j < q * 32) := by omega
      have h2 : q * 32 + j - q * 32 < 32 := by omega
      have h3 : q * 32 + j - q * 32 = j := by omega
      simp [hj, h3]
    · simp [hj]
  · rw [if_neg hq, testBit_slot]
    by_cases hj : j < 32
    · by_cases h1 : q * 32 + j < p * 32
      · simp [h1]
      · have h2 : ¬ (q * 32 + j - p * 32 < 32) := by omega
        simp [h1, h2]
    · simp [hj]

theorem slot_zero (q : Nat) : slot 0 q = 0 := by
  simp [slot]

theorem replicate_pixel_eq (v : Nat) (hv : v ≤ 255) : replicate_pixel v = v := by
  unfold replicate_pixel pixel_shl
  have h16 : v <<< 16 % 2 ^ 8 = 0 := by
    rw [Nat.shiftLeft_eq]; omega
  have h8 : v <<< 8 % 2 ^ 8 = 0 := by
    rw [Nat.shiftLeft_eq]; omega
  rw [h16, h8, Nat.zero_or, Nat.zero_or]
  exact Nat.mod_eq_of_lt (by omega)

theorem replicate_pixel_lt (v : Nat) : replicate_pixel v < 2 ^ 32 :=
  Nat.mod_lt _ (by positivity)

theorem pack_pixels_upto (M C : Nat) (s : List Nat) (m : Nat)
    (hs : min m (M - C) ≤ s.length) :
    ∃ wd, (List.range m).foldlM (pack_pixel (M : Int) (C : Int)) (0, s)
        = some (wd, s.drop (min m (M - C))) ∧
      ∀ q, slot wd q = if q < min m (M - C) then replicate_pixel (s.getD q 0) else 0 := by
  induction m with
  | zero => exact ⟨0, by simp, by intro q; simp [slot_zero]⟩
  | succ m ih =>
    obtain ⟨wd, h1, h2⟩ := ih (by omega)
    rw [List.range_succ, List.foldlM_append, h1]
    by_cases hc : C + m < M
    · have hm1 : min (m + 1) (M - C) = m + 1 := by omega
      have hm0 : min m (M - C) = m := by omega
      rw [hm1] at hs ⊢
      rw [hm0] at h2 ⊢
      have hlt : m < s.length := by omega
      have hd : s.drop m = s[m] :: s.drop (m + 1) := List.drop_eq_getElem_cons hlt
      have hci : (C : Int) + (m : Int) < (M : Int) := by omega
      refine ⟨set_slot wd m (replicate_pixel s[m]), ?_, ?_⟩
      · simp only [List.foldlM_cons, List.foldlM_nil, bind, Option.bind, pack_pixel, hci,
          if_true, hd, pure]
      · intro q
        rw [slot_set_slot, h2]
        by_cases hq : q = m
        · subst hq
          rw [if_pos rfl, if_pos (Nat.lt_succ_self _), Nat.mod_eq_of_lt (replicate_pixel_lt _)]
          simp [List.getD_eq_getElem?_getD, List.getElem?_eq_getElem hlt]
        · rw [if_neg hq]
          by_cases hq' : q < m
          · rw [if_pos hq', if_pos (by omega)]
          · rw [if_neg hq', if_neg (by omega)]
    · have hm1 : min (m + 1) (M - C) = min m (M - C) := by omega
      have hci : ¬ ((C : Int) + (m : Int) < (M : Int)) := by omega
      rw [hm1]
      exact ⟨wd, by simp [pack_pixel, hci], h2⟩

theorem pack_pixels_burst (M i : Nat) (s0 : List Nat) (hs : M ≤ s0.length) :
    ∃ wd, pack_pixels (M : Int) ((i : Int) * (PIXELS_PER_BURST : Int))
        (0, s0.drop (min (16 * i) M)) = some (wd, s0.drop (min (16 * (i + 1)) M)) ∧
      ∀ q, slot wd q =
        if q < 16 ∧ 16 * i + q < M then replicate_pixel (s0.getD (16 * i + q) 0) else 0 := by
  have hcast : (i : Int) * (PIXELS_PER_BURST : Int) = ((16 * i : Nat) : Int) := by
    simp [PIXELS_PER_BURST, WIDE_BUS_WIDTH]; ring
  obtain ⟨wd, h1, h2⟩ := pack_pixels_upto M (16 * i) (s0.drop (min (16 * i) M)) 16
    (by rw [List.length_drop]; omega)
  refine ⟨wd, ?_, ?_⟩
  · unfold pack_pixels
    rw [hcast]
    have e : PIXELS_PER_BURST = 16 := rfl
    rw [e, h1, List.drop_drop]
    congr 3
    omega
  · intro q
    rw [h2]
    by_cases hq : q < 16 ∧ 16 * i + q < M
    · rw [if_pos hq, if_pos (by omega)]
      have e : min (16 * i) M = 16 * i := by omega
      rw [e]
      simp [List.getD_eq_getElem?_getD, List.getElem?_drop]
    · rw [if_neg hq, if_neg (by omega)]

theorem write_burst_loop_some (M : Nat) (s0 : List Nat) (hs : M ≤ s0.length) (n : Nat) :
    ∀ (i : Nat) (log : List (Nat × Nat)),
      ∃ log', write_burst_loop (M : Int) i n (log, s0.drop (min (16 * i) M))
          = some (log ++ log', s0.drop (min (16 * (i + n)) M)) ∧
        log'.map Prod.fst = List.range' i n ∧
        ∀ j, j < n → ∃ wd, log'[j]? = some (i + j, wd) ∧
          ∀ q, slot wd q =
            if q < 16 ∧ 16 * (i + j) + q < M
            then replicate_pixel (s0.getD (16 * (i + j) + q) 0) else 0 := by
  induction n with
  | zero => intro i log; exact ⟨[], by simp [write_burst_loop], rfl, by intro j hj; omega⟩
  | succ n ih =>
    intro i log
    obtain ⟨wd, h1, h2⟩ := pack_pixels_burst M i s0 hs
    obtain ⟨log', g1, g2, g3⟩ := ih (i + 1) (log ++ [(i, wd)])
    refine ⟨(i, wd) :: log', ?_, ?_, ?_⟩
    · simp only [write_burst_loop, h1, g1]
      have e : i + 1 + n = i + (n + 1) := by omega
      rw [e, List.append_assoc]
      rfl
    · simp [g2, List.range'_succ]
    · intro j hj
      cases j with
      | zero => exact ⟨wd, by simp, h2⟩
      | succ j =>
        obtain ⟨wd', e1, e2⟩ := g3 j (by omega)
        refine ⟨wd', ?_, ?_⟩
        · rw [List.getElem?_cons_succ, e1]
          congr 2; omega
        · intro q
          rw [e2 q]
          have e : i + 1 + j = i + (j + 1) := by omega
          rw [e]

/-- A run of `write_and_pack` asked for `M` samples, with `M + 15`
representable as `int`, on an edge stream that holds at least `M` samples. -/
theorem write_and_pack_some (M : Nat) (hM : M + 15 < 2147483648) (s0 : List Nat)
    (hs : M ≤ s0.length) :
    ∃ log, write_and_pack s0 M = some (log, s0.drop M) ∧
      log.map Prod.fst = List.range ((M + 15) / 16) ∧
      ∀ j, j < (M + 15) / 16 → ∃ wd, log[j]? = some (j, wd) ∧
        ∀ q, slot wd q =
          if q < 16 ∧ 16 * j + q < M then replicate_pixel (s0.getD (16 * j + q) 0) else 0 := by
  have hb : (Int.tdiv (wrap32 ((M : Int) + (PIXELS_PER_BURST : Int) - 1))
      (PIXELS_PER_BURST : Int)).toNat = (M + 15) / 16 := by
    have e : (M : Int) + (PIXELS_PER_BURST : Int) - 1 = ((M + 15 : Nat) : Int) := by
      simp [PIXELS_PER_BURST, WIDE_BUS_WIDTH]; omega
    have e16 : (PIXELS_PER_BURST : Int) = ((16 : Nat) : Int) := rfl
    rw [e, wrap32_of_lt _ (by positivity) (by exact_mod_cast hM), e16, ← Int.ofNat_tdiv]
    exact Int.toNat_natCast _
  obtain ⟨log, h1, h2, h3⟩ := write_burst_loop_some M s0 hs ((M + 15) / 16) 0 []
  refine ⟨log, ?_, ?_, ?_⟩
  · unfold write_and_pack
    simp only [hb]
    have e0 : s0.drop (min (16 * 0) M) = s0 := by simp
    rw [e0] at h1
    have e1 : min (16 * (0 + (M + 15) / 16)) M = M := by omega
    rw [e1, List.nil_append] at h1
    exact h1
  · rw [h2, List.range_eq_range']
  · intro j hj
    obtain ⟨wd, e1, e2⟩ := h3 j hj
    refine ⟨wd, by simpa using e1, ?_⟩
    intro q
    simpa using e2 q

/-! ## Claims on the transport packer -/

/-- C10: `write_and_pack` asked for `M >= 0` samples (`M + 15` representable
as `int`) on an edge stream that starts with `M` samples returns, has read
exactly these `M` samples (what follows them is left in the stream) and has
written exactly `ceil(M / 16)` words, one to each of
`out_img[0 .. ceil(M / 16) - 1]` in this order, and no other word. -/
theorem write_and_pack_counts (M : Nat) (hM : M + 15 < 2147483648) (pre rest : List Nat)
    (hpre : pre.length = M) :
    ∃ log, write_and_pack (pre ++ rest) M = some (log, rest) ∧
      log.length = (M + 15) / 16 ∧
      log.map Prod.fst = List.range ((M + 15) / 16) := by
  obtain ⟨log, h1, h2, _⟩ := write_and_pack_some M hM (pre ++ rest) (by simp [hpre])
  refine ⟨log, ?_, ?_, h2⟩
  · rw [h1, ← hpre]; simp
  · have := congrArg List.length h2
    simpa using this

/-- Witness of C10 for 17 samples followed by two more in the stream. -/
theorem write_and_pack_counts_witness :
    ∃ log, write_and_pack
        ([1, 2, 3, 4, 5, 6, 7, 8, 9, 10, 11, 12, 13, 14, 15, 16, 17] ++ [18, 19])
        ((17 : Nat) : Int) = some (log, [18, 19]) ∧
      log.length = (17 + 15) / 16 ∧
      log.map Prod.fst = List.range ((17 + 15) / 16) :=
  write_and_pack_counts 17 (by decide)
    [1, 2, 3, 4, 5, 6, 7, 8, 9, 10, 11, 12, 13, 14, 15, 16, 17] [18, 19] (by decide)

/-- C9, the code at `M = 1` with the sample `V = 1`: the only word written is
`out_img[0] = 1`, so slot 0 holds `0x00000001` and not `0x00010101`; the slots
1..15 are zero. -/
theorem write_and_pack_slot_not_replicated :
    write_and_pack [1] 1 = some ([(0, 1)], []) ∧
      slot 1 0 = 0x00000001 ∧ slot 1 0 ≠ (1 <<< 16 ||| 1 <<< 8 ||| 1) ∧
      ∀ p, p < 16 → 1 ≤ p → slot 1 p = 0 := by
  refine ⟨by decide, by decide, by decide, ?_⟩
  intro p hp h1
  interval_cases p <;> decide

/-! ## Claims on the pipeline -/

/-- C8, the code at `height = width = 3`: `image_process` calls
`read_and_grayscale` with `total_bursts = 1`, which writes 16 samples to the
grayscale stream and not `3 * 3 = 9`; the 7 samples that `sobel_process` does
not read stay in the stream. -/
theorem read_and_grayscale_excess_samples :
    Int.tdiv (wrap32 (wrap32 (3 * 3) + PIXELS_PER_BURST - 1)) PIXELS_PER_BURST = 1 ∧
      (read_and_grayscale [0] [] 1).map List.length = some 16 ∧
      (image_process (fun _ _ => 0) [0] 3 3).map (fun r => r.stream_grayscale.length)
        = some 7 := by
  refine ⟨by decide, by decide, by decide⟩

/-! ## The uniform 3x3 image, for any content of the window on entry -/

theorem sobel_loop_uniform_3x3 (window0 : Nat → Nat → Nat) (t1 t2 rest : List Nat) :
    (sobel_loop 3 3 0 9
      { line_buffer := [0 :: 0 :: 0 :: t1, 0 :: 0 :: 0 :: t2],
        window := array2 KERNEL_SIZE KERNEL_SIZE window0,
        stream_grayscale := List.replicate 9 255 ++ rest,
        stream_edge_output := [], emit_log := [] }).map (fun st => st.stream_edge_output)
      = some [edge_pixel_of [[0, window0 1 2, 0], [0, window0 2 2, 255], [255, 255, 255]]] := by
  have d0 : Int.tdiv 0 3 = 0 := by decide
  have m0 : Int.tmod 0 3 = 0 := by decide
  have d1 : Int.tdiv 1 3 = 0 := by decide
  have m1 : Int.tmod 1 3 = 1 := by decide
  have d2 : Int.tdiv 2 3 = 0 := by decide
  have m2 : Int.tmod 2 3 = 2 := by decide
  have d3 : Int.tdiv 3 3 = 1 := by decide
  have m3 : Int.tmod 3 3 = 0 := by decide
  have d4 : Int.tdiv 4 3 = 1 := by decide
  have m4 : Int.tmod 4 3 = 1 := by decide
  have d5 : Int.tdiv 5 3 = 1 := by decide
  have m5 : Int.tmod 5 3 = 2 := by decide
  have d6 : Int.tdiv 6 3 = 2 := by decide
  have m6 : Int.tmod 6 3 = 0 := by decide
  have d7 : Int.tdiv 7 3 = 2 := by decide
  have m7 : Int.tmod 7 3 = 1 := by decide
  have d8 : Int.tdiv 8 3 = 2 := by decide
  have m8 : Int.tmod 8 3 = 2 := by decide
  simp [sobel_loop, sobel_step, MAX_WIDTH, window_shift, column_insert, set2, get2, array2,
    KERNEL_SIZE, List.range, List.range.loop, List.replicate, d0, m0, d1, m1, d2, m2, d3, m3, d4, m4, d5, m5, d6, m6, d7, m7, d8, m8]

theorem edge_pixel_of_uniform_3x3 (a b : Nat) :
    edge_pixel_of [[0, a, 0], [0, b, 255], [255, 255, 255]] = 255 := by
  have h := edge_pixel_of_eq_min [[0, a, 0], [0, b, 255], [255, 255, 255]]
  rw [convolve_S_KX, convolve_S_KY, Int.shiftRight_eq_div_pow] at h
  simp only [get2, List.getD_cons_zero, List.getD_cons_succ, MAG_SCALE_SHIFT] at h
  have h0 : 0 ≤ |((0 : Nat) : Int) + 2 * (a : Int) + ((0 : Nat) : Int)
      - (((255 : Nat) : Int) + 2 * ((255 : Nat) : Int) + ((255 : Nat) : Int))| := abs_nonneg _
  generalize |((0 : Nat) : Int) + 2 * (a : Int) + ((0 : Nat) : Int)
      - (((255 : Nat) : Int) + 2 * ((255 : Nat) : Int) + ((255 : Nat) : Int))| = y at h h0
  have e : |((0 : Nat) : Int) - ((0 : Nat) : Int) + 2 * (((255 : Nat) : Int) - ((0 : Nat) : Int))
      + (((255 : Nat) : Int) - ((255 : Nat) : Int))| = 510 := by norm_num
  rw [e] at h
  have : min (255 : Int) ((510 + y) / ((2 ^ 1 : Nat) : Int)) = 255 := by
    apply min_eq_left
    norm_num
    omega
  rw [this] at h
  exact_mod_cast h

theorem sobel_process_uniform_3x3 (window0 : Nat → Nat → Nat) (rest : List Nat) :
    (sobel_process window0 (List.replicate 9 255 ++ rest) [] 3 3).map
        (fun st => st.stream_edge_output) = some [255] := by
  have e9 : (wrap32 (3 * 3)).toNat = 9 := by decide
  have elb : List.replicate (KERNEL_SIZE - 1) (List.replicate MAX_WIDTH 0) =
      [0 :: 0 :: 0 :: List.replicate 4093 0, 0 :: 0 :: 0 :: List.replicate 4093 0] := by
    rfl
  unfold sobel_process
  simp only [e9, elb]
  rw [sobel_loop_uniform_3x3, edge_pixel_of_uniform_3x3]

/-- C1, the code on the uniform 3x3 image of luma 255: whatever the array
`window` holds on entry, the only sample written is 255, whereas the 3x3
operator applied to the neighbourhood centred on the interior pixel `(1, 1)`
gives 0. -/
theorem sobel_process_not_centred (window0 : Nat → Nat → Nat) :
    (sobel_process window0 (List.replicate 9 255) [] 3 3).map
        (fun st => st.stream_edge_output) = some [255] ∧
      edge_pixel_of (neighbourhood (List.replicate 9 255) 3 1 1) = 0 := by
  refine ⟨?_, by decide⟩
  have h := sobel_process_uniform_3x3 window0 []
  rwa [List.append_nil] at h

/-- C4, the code on the uniform 3x3 image whose pixels all are `0x00FFFFFF`:
whatever the array `window` holds on entry, the luma converter followed by
`sobel_process` writes the edge sample 255, not 0. -/
theorem uniform_image_nonzero (window0 : Nat → Nat → Nat) :
    (∀ p, p < 9 →
      slot 0x00FFFFFF00FFFFFF00FFFFFF00FFFFFF00FFFFFF00FFFFFF00FFFFFF00FFFFFF00FFFFFF p
        = 0x00FFFFFF) ∧
      ((read_and_grayscale
          [0x00FFFFFF00FFFFFF00FFFFFF00FFFFFF00FFFFFF00FFFFFF00FFFFFF00FFFFFF00FFFFFF] [] 1).bind
        fun gray => (sobel_process window0 gray [] 3 3).map
          fun st => st.stream_edge_output) = some [255] := by
  constructor
  · intro p hp
    interval_cases p <;> decide
  · have hr : read_and_grayscale
        [0x00FFFFFF00FFFFFF00FFFFFF00FFFFFF00FFFFFF00FFFFFF00FFFFFF00FFFFFF00FFFFFF] [] 1
        = some (List.replicate 9 255 ++ List.replicate 7 0) := by decide
    rw [hr, Option.some_bind]
    exact sobel_process_uniform_3x3 window0 _

/-! ## Lemmas on two-dimensional arrays -/

theorem map_range_set {α : Type} (g : Nat → α) (m k : Nat) (x : α) :
    ((List.range m).map g).set k x = (List.range m).map (fun k' => if k' = k then x else g k') := by
  apply List.ext_getElem?
  intro j
  rw [List.getElem?_set, List.getElem?_map, List.getElem?_map]
  by_cases hj : j < m
  · rw [List.getElem?_range hj]
    by_cases hkj : k = j
    · subst hkj
      simp [hj]
    · have : ¬ j = k := fun h => hkj h.symm
      simp [hkj, this]
  · have hn : (List.range m)[j]? = none := by
      rw [List.getElem?_eq_none_iff]; simpa using hj
    rw [hn]
    by_cases hkj : k = j
    · subst hkj
      simp [hj]
    · simp [hkj]

theorem map_range_getD {α : Type} (g : Nat → α) (m k : Nat) (d : α) (hk : k < m) :
    ((List.range m).map g).getD k d = g k := by
  rw [List.getD_eq_getElem?_getD, List.getElem?_map, List.getElem?_range hk]
  rfl

theorem get2_array2 (m n : Nat) (f : Nat → Nat → Nat) (k l : Nat) (hk : k < m) (hl : l < n) :
    get2 (array2 m n f) k l = f k l := by
  unfold get2 array2
  rw [map_range_getD _ _ _ _ hk, map_range_getD _ _ _ _ hl]

theorem array2_congr (m n : Nat) (f f' : Nat → Nat → Nat)
    (h : ∀ k l, k < m → l < n → f k l = f' k l) : array2 m n f = array2 m n f' := by
  unfold array2
  apply List.map_congr_left
  intro k hk
  apply List.map_congr_left
  intro l hl
  exact h k l (List.mem_range.mp hk) (List.mem_range.mp hl)

theorem set2_array2 (m n : Nat) (f : Nat → Nat → Nat) (k l v : Nat) (hk : k < m) :
    set2 (array2 m n f) k l v =
      array2 m n (fun k' l' => if k' = k ∧ l' = l then v else f k' l') := by
  unfold set2
  have hrow : (array2 m n f).getD k [] = (List.range n).map (f k) := by
    unfold array2
    rw [map_range_getD _ _ _ _ hk]
  rw [hrow, map_range_set]
  unfold array2
  rw [map_range_set]
  apply List.map_congr_left
  intro k' _
  by_cases hkk : k' = k
  · subst hkk
    simp
  · simp [hkk]

theorem array2_3x3 (wf : Nat → Nat → Nat) :
    array2 3 3 wf = [[wf 0 0, wf 0 1, wf 0 2], [wf 1 0, wf 1 1, wf 1 2], [wf 2 0, wf 2 1, wf 2 2]] := by
  rfl

theorem window_shift_3x3 (a00 a01 a02 a10 a11 a12 a20 a21 a22 : Nat) :
    window_shift [[a00, a01, a02], [a10, a11, a12], [a20, a21, a22]] =
      [[a01, a02, a02], [a11, a12, a12], [a21, a22, a22]] := by
  rfl

theorem column_insert_array2 (a00 a01 a02 a10 a11 a12 a20 a21 a22 : Nat)
    (lf : Nat → Nat → Nat) (col : Nat) (hcol : col < MAX_WIDTH) :
    column_insert col ([[a00, a01, a02], [a10, a11, a12], [a20, a21, a22]],
        array2 2 MAX_WIDTH lf) =
      ([[a00, a01, lf 0 col], [a10, a11, lf 1 col], [a20, a21, a22]],
        array2 2 MAX_WIDTH (fun k c => if c = col then (if k = 0 then a12 else a22) else lf k c)) := by
  have e0 : ∀ lb : List (List Nat),
      column_insert col ([[a00, a01, a02], [a10, a11, a12], [a20, a21, a22]], lb) =
        ([[a00, a01, get2 lb 0 col], [a10, a11, get2 (set2 lb 0 col a12) 1 col],
            [a20, a21, a22]],
          set2 (set2 lb 0 col a12) 1 col a22) := fun _ => rfl
  have s0 := set2_array2 2 MAX_WIDTH lf 0 col a12 (by decide)
  have g0 : get2 (array2 2 MAX_WIDTH lf) 0 col = lf 0 col :=
    get2_array2 2 MAX_WIDTH lf 0 col (by decide) hcol
  have g1 : get2 (set2 (array2 2 MAX_WIDTH lf) 0 col a12) 1 col = lf 1 col := by
    rw [s0, get2_array2 2 MAX_WIDTH _ 1 col (by decide) hcol]
    simp
  rw [e0, g0, g1, s0, set2_array2 2 MAX_WIDTH _ 1 col a22 (by decide)]
  have hc := array2_congr 2 MAX_WIDTH
    (fun k' l' => if k' = 1 ∧ l' = col then a22
      else if k' = 0 ∧ l' = col then a12 else lf k' l')
    (fun k c => if c = col then (if k = 0 then a12 else a22) else lf k c)
    (by
      intro k c hk _
      by_cases hc : c = col
      · subst hc
        interval_cases k <;> simp
      · simp [hc])
  rw [hc]

theorem window_next_3x3 (wf lf : Nat → Nat → Nat) (col x : Nat) :
    array2 3 3 (window_next wf lf col x) =
      [[wf 0 1, wf 0 2, lf 0 col], [wf 1 1, wf 1 2, lf 1 col], [wf 2 1, wf 2 2, x]] := by
  rfl

theorem sobel_step_array2 (H W : Nat) (hW : 0 < W) (hW' : W ≤ MAX_WIDTH) (i : Nat)
    (wf lf : Nat → Nat → Nat) (x : Nat) (rest out lg : List Nat) :
    sobel_step H W i
      { line_buffer := array2 2 MAX_WIDTH lf, window := array2 3 3 wf,
        stream_grayscale := x :: rest, stream_edge_output := out, emit_log := lg } =
      some
        { line_buffer := array2 2 MAX_WIDTH (line_buffer_next wf lf (i % W)),
          window := array2 3 3 (window_next wf lf (i % W) x),
          stream_grayscale := rest,
          stream_edge_output := out ++
            (if interior H W i then [edge_pixel_of (array2 3 3 (window_next wf lf (i % W) x))]
             else []),
          emit_log := lg ++ (if interior H W i then [i] else []) } := by
  have hW0 : (W : Int) ≠ 0 := by omega
  have hlt := Nat.mod_lt i hW
  have hcol : ¬ (((i % W : Nat) : Int) < 0 ∨ (MAX_WIDTH : Int) ≤ ((i % W : Nat) : Int)) := by
    omega
  have hci : column_insert (i % W) (window_shift (array2 3 3 wf), array2 2 MAX_WIDTH lf) =
      ([[wf 0 1, wf 0 2, lf 0 (i % W)], [wf 1 1, wf 1 2, lf 1 (i % W)], [wf 2 1, wf 2 2, wf 2 2]],
        array2 2 MAX_WIDTH (line_buffer_next wf lf (i % W))) := by
    rw [array2_3x3, window_shift_3x3, column_insert_array2 _ _ _ _ _ _ _ _ _ _ _ (by omega)]
    rfl
  have hset : ∀ a b c d e f g h k : Nat,
      set2 [[a, b, c], [d, e, f], [g, h, k]] (KERNEL_SIZE - 1) (KERNEL_SIZE - 1) x =
        [[a, b, c], [d, e, f], [g, h, x]] := fun _ _ _ _ _ _ _ _ _ => rfl
  unfold sobel_step
  simp only [hW0, if_false, ← Int.ofNat_tdiv, ← Int.ofNat_tmod, hcol, Int.toNat_natCast, hci,
    hset, ← window_next_3x3 wf lf (i % W) x]
  by_cases hin : interior H W i = true
  · have hc : ((i / W : Nat) : Int) ≥ 1 ∧ ((i % W : Nat) : Int) ≥ 1 ∧
        ((i / W : Nat) : Int) < (H : Int) - 1 ∧ ((i % W : Nat) : Int) < (W : Int) - 1 := by
      simp only [interior, decide_eq_true_eq] at hin
      omega
    rw [if_pos hc]
    simp [hin]
  · have hc : ¬ (((i / W : Nat) : Int) ≥ 1 ∧ ((i % W : Nat) : Int) ≥ 1 ∧
        ((i / W : Nat) : Int) < (H : Int) - 1 ∧ ((i % W : Nat) : Int) < (W : Int) - 1) := by
      simp only [interior, decide_eq_true_eq] at hin
      omega
    rw [if_neg hc]
    simp [hin]

theorem mod_facts (W n : Nat) (hW : 0 < W) :
    n % W < W ∧ n % W ≤ n ∧ (n < W → n % W = n) ∧ (W ≤ n → W ≤ n - n % W) ∧
      (n % W + 1 < W → (n + 1) % W = n % W + 1) ∧
      (¬ n % W + 1 < W → (n + 1) % W = 0) := by
  have h0 := Nat.mod_lt n hW
  have hdm := Nat.div_add_mod n W
  refine ⟨h0, Nat.mod_le n W, fun h => Nat.mod_eq_of_lt h, ?_, ?_, ?_⟩
  · intro h
    have hq : 1 ≤ n / W := (Nat.one_le_div_iff hW).mpr h
    have : W * 1 ≤ W * (n / W) := Nat.mul_le_mul_left W hq
    omega
  · intro h
    rw [Nat.add_mod, Nat.mod_eq_of_lt (by omega : 1 < W)]
    exact Nat.mod_eq_of_lt h
  · intro h
    have hm : n % W = W - 1 := by omega
    rw [Nat.add_mod, hm]
    by_cases h1 : W = 1
    · subst h1; simp
    · rw [Nat.mod_eq_of_lt (by omega : 1 < W)]
      have : W - 1 + 1 = W := by omega
      rw [this, Nat.mod_self]

theorem window_step_eq (window0 : Nat → Nat → Nat) (s : List Nat) (W n : Nat) (hW : 0 < W)
    (kr kc : Nat) (hkr : kr < 3) (hkc : kc < 3) :
    window_next (window_after window0 s W n) (line_buffer_after window0 s W n) (n % W)
        (s.getD n 0) kr kc = window_after window0 s W (n + 1) kr kc := by
  obtain ⟨f0, f1, f2, f3, _, _⟩ := mod_facts W n hW
  unfold window_next window_after line_buffer_after inserted evicted ins0 ins1
  generalize n % W = m at f0 f1 f2 f3
  interval_cases kc
  · simp only [Nat.zero_lt_succ, if_true, Nat.add_zero, Nat.zero_add]
    split_ifs <;> first | rfl | omega | (congr 1; omega)
  · simp only [Nat.one_lt_two, if_true]
    split_ifs <;> first | rfl | omega | (congr 1; omega)
  · simp only [Nat.lt_irrefl, if_false]
    interval_cases kr <;> simp <;> split_ifs <;> first | rfl | omega | (congr 1; omega)

theorem line_buffer_step_eq (window0 : Nat → Nat → Nat) (s : List Nat) (W n : Nat) (hW : 0 < W)
    (k c : Nat) (hk : k < 2) :
    line_buffer_next (window_after window0 s W n) (line_buffer_after window0 s W n) (n % W) k c
      = line_buffer_after window0 s W (n + 1) k c := by
  obtain ⟨f0, f1, f2, f3, f4, f5⟩ := mod_facts W n hW
  obtain ⟨g0, g1, g2, g3, _, _⟩ := mod_facts W (n + 1) hW
  unfold line_buffer_next line_buffer_after
  generalize (n + 1) % W = m' at f4 f5 g0 g1 g2 g3
  generalize n % W = m at f0 f1 f2 f3 f4 f5
  by_cases hc : c = m
  · subst hc
    rw [if_pos rfl, if_pos f0]
    have hw1 : window_after window0 s W n 1 2 = evicted window0 s W 0 n := by
      unfold window_after inserted evicted prev1
      by_cases hn : n = 0
      · subst hn; simp
      · have h3 : 3 ≤ n + 2 := by omega
        have e : n + 2 - 3 = n - 1 := by omega
        simp [hn, h3, e]
    have hw2 : window_after window0 s W n 2 2 = evicted window0 s W 1 n := by
      unfold window_after inserted evicted prev2
      by_cases hn : n = 0
      · subst hn; simp
      · have h3 : 3 ≤ n + 2 := by omega
        have e : n + 2 - 3 = n - 1 := by omega
        simp [hn, h3, e]
    have hev : (if k = 0 then window_after window0 s W n 1 2 else window_after window0 s W n 2 2)
        = evicted window0 s W k n := by
      interval_cases k
      · simpa using hw1
      · simpa using hw2
    rw [hev]
    split_ifs <;> first | rfl | omega | (congr 1; omega)
  · rw [if_neg hc]
    split_ifs <;> first | rfl | omega | (congr 1; omega)

theorem sobel_process_eq_after (window0 : Nat → Nat → Nat) (sg out : List Nat)
    (height width : Int) :
    sobel_process window0 sg out height width =
      sobel_after window0 sg out height width (wrap32 (height * width)).toNat := by
  rfl

theorem sobel_loop_snoc (height width : Int) (n : Nat) :
    ∀ (i : Nat) (st : SobelState),
      sobel_loop height width i (n + 1) st =
        match sobel_loop height width i n st with
        | none => none
        | some st' => sobel_step height width (i + n) st' := by
  induction n with
  | zero =>
    intro i st
    simp only [sobel_loop, Nat.add_zero]
    cases sobel_step height width i st <;> rfl
  | succ n ih =>
    intro i st
    rw [sobel_loop]
    cases hs : sobel_step height width i st with
    | none => simp [sobel_loop, hs]
    | some st1 =>
      simp only []
      rw [ih (i + 1) st1]
      have e : i + 1 + n = i + (n + 1) := by omega
      rw [e]
      conv_rhs => rw [sobel_loop, hs]

theorem replicate_eq_array2 :
    List.replicate (KERNEL_SIZE - 1) (List.replicate MAX_WIDTH 0) =
      array2 2 MAX_WIDTH (fun _ _ => 0) := by
  unfold array2
  simp [KERNEL_SIZE]

/-- The state of `sobel_process` after `n` iterations, in closed form. -/
theorem sobel_after_closed (window0 : Nat → Nat → Nat) (H W : Nat) (hW : 0 < W)
    (hW' : W ≤ MAX_WIDTH) (s out : List Nat) (n : Nat) (hn : n ≤ s.length) :
    sobel_after window0 s out H W n = some
      { line_buffer := array2 2 MAX_WIDTH (line_buffer_after window0 s W n),
        window := array2 3 3 (window_after window0 s W n),
        stream_grayscale := s.drop n,
        stream_edge_output := out ++ ((List.range n).filter (interior H W)).map
          (fun i => edge_pixel_of (array2 3 3 (window_after window0 s W (i + 1)))),
        emit_log := (List.range n).filter (interior H W) } := by
  induction n with
  | zero =>
    have e1 : array2 2 MAX_WIDTH (line_buffer_after window0 s W 0) =
        array2 2 MAX_WIDTH (fun _ _ => 0) := by
      apply array2_congr
      intro k c _ _
      simp [line_buffer_after, Nat.zero_mod]
      omega
    have e2 : array2 3 3 (window_after window0 s W 0) = array2 3 3 window0 := by
      apply array2_congr
      intro k c _ hc
      have : ¬ 3 ≤ c := by omega
      simp [window_after, this]
    rw [e1, e2, ← replicate_eq_array2]
    simp [sobel_after, sobel_loop, KERNEL_SIZE]
  | succ n ih =>
    have hlt : n < s.length := hn
    unfold sobel_after at ih ⊢
    rw [sobel_loop_snoc, ih (by omega)]
    simp only [Nat.zero_add]
    rw [List.drop_eq_getElem_cons hlt]
    rw [sobel_step_array2 H W hW hW']
    have hx : s[n] = s.getD n 0 := by
      simp [List.getD_eq_getElem?_getD, List.getElem?_eq_getElem hlt]
    have ew : array2 3 3 (window_next (window_after window0 s W n)
        (line_buffer_after window0 s W n) (n % W) s[n]) =
        array2 3 3 (window_after window0 s W (n + 1)) := by
      rw [hx]
      apply array2_congr
      intro kr kc hkr hkc
      exact window_step_eq window0 s W n hW kr kc hkr hkc
    have el : array2 2 MAX_WIDTH (line_buffer_next (window_after window0 s W n)
        (line_buffer_after window0 s W n) (n % W)) =
        array2 2 MAX_WIDTH (line_buffer_after window0 s W (n + 1)) := by
      apply array2_congr
      intro k c hk _
      exact line_buffer_step_eq window0 s W n hW k c hk
    rw [ew, el]
    congr 2
    · rw [List.range_succ, List.filter_append, List.map_append, List.append_assoc]
      congr 1
      by_cases hin : interior H W n = true <;> simp [hin]
    · rw [List.range_succ, List.filter_append]
      by_cases hin : interior H W n = true <;> simp [hin]

/-! ## Claims on the state of the convolver -/

theorem inserted_lagged (window0 : Nat → Nat → Nat) (s : List Nat) (W kr t : Nat)
    (hkr : kr ≤ 2) (ht : (2 - kr) * (W + 1) ≤ t) :
    inserted window0 s W kr t = s.getD (t - (2 - kr) * (W + 1)) 0 := by
  interval_cases kr
  · have h1 : ¬ t < W := by omega
    have h2 : ¬ t - W = 0 := by omega
    have h3 : ¬ t - W - 1 < W := by omega
    have h4 : ¬ t - W - 1 - W = 0 := by omega
    have e : t - W - 1 - W - 1 = t - (2 - 0) * (W + 1) := by omega
    simp only [inserted, ins0, prev1, ins1, prev2, if_true, h1, h2, h3, h4, if_false, e]
  · have h1 : ¬ t < W := by omega
    have h2 : ¬ t - W = 0 := by omega
    have e : t - W - 1 = t - (2 - 1) * (W + 1) := by omega
    have h10 : ¬ (1 = 0) := by decide
    simp only [inserted, ins1, prev2, h10, if_true, h1, h2, if_false, e]
  · have h20 : ¬ (2 = 0) := by decide
    have h21 : ¬ (2 = 1) := by decide
    simp only [inserted, h20, h21, if_false]
    congr 1
    omega

theorem window_after_lagged (window0 : Nat → Nat → Nat) (s : List Nat) (W i kr kc : Nat)
    (hkr : kr ≤ 2) (hkc : kc ≤ 2) (hj : (2 - kr) * (W + 1) + (2 - kc) ≤ i) :
    window_after window0 s W (i + 1) kr kc = s.getD (i - (2 - kr) * (W + 1) - (2 - kc)) 0 := by
  have h3 : 3 ≤ i + 1 + kc := by omega
  generalize hq : (2 - kr) * (W + 1) = q at hj
  unfold window_after
  rw [if_pos h3, inserted_lagged window0 s W kr (i + 1 + kc - 3) hkr (by rw [hq]; omega), hq]
  congr 1
  omega

/-- C19: for `height >= 1`, `1 <= width <= 4096` and every grayscale stream `g`
of `height * width` samples, after `sobel_process` has processed the stream
index `i < height * width`, every window cell `[kr][kc]` with
`j = i - (2 - kr) * (width + 1) - (2 - kc) >= 0` holds `g[j]`, whatever the
window held on entry: each window row lags the row below it by `width + 1`
samples. -/
theorem window_closed_form (window0 : Nat → Nat → Nat) (height width : Nat)
    (hw : 1 ≤ width) (hmax : width ≤ 4096) (g rest out : List Nat)
    (hg : g.length = height * width) (i : Nat) (hi : i < height * width) (kr kc : Nat)
    (hkr : kr ≤ 2) (hkc : kc ≤ 2) (hj : (2 - kr) * (width + 1) + (2 - kc) ≤ i) :
    ∃ st, sobel_after window0 (g ++ rest) out height width (i + 1) = some st ∧
      get2 st.window kr kc = g.getD (i - (2 - kr) * (width + 1) - (2 - kc)) 0 := by
  refine ⟨_, sobel_after_closed window0 height width hw hmax (g ++ rest) out (i + 1)
    (by simp; omega), ?_⟩
  simp only []
  rw [get2_array2 3 3 _ kr kc (by omega) (by omega),
    window_after_lagged window0 (g ++ rest) width i kr kc hkr hkc hj]
  have hlt : i - (2 - kr) * (width + 1) - (2 - kc) < g.length := by omega
  simp [List.getD_eq_getElem?_getD, List.getElem?_append_left hlt]

/-- Witness of C19 on a 3x3 image: after the last sample, `window[1][2]` holds
`g[8 - 4]`. -/
theorem window_closed_form_witness :
    ∃ st, sobel_after (fun _ _ => 0) ([1, 2, 3, 4, 5, 6, 7, 8, 9] ++ []) []
        ((3 : Nat) : Int) ((3 : Nat) : Int) (8 + 1) = some st ∧
      get2 st.window 1 2 = [1, 2, 3, 4, 5, 6, 7, 8, 9].getD (8 - (2 - 1) * (3 + 1) - (2 - 2)) 0 :=
  window_closed_form (fun _ _ => 0) 3 3 (by decide) (by decide) [1, 2, 3, 4, 5, 6, 7, 8, 9] [] []
    (by decide) 8 (by decide) 1 2 (by decide) (by decide) (by decide)

/-- C16, the code on the 3x3 image with samples 1..9: after steps 1-3 for the
sample at `(row, col) = (2, 2)` the window is `[[0, w, 1], [3, 4, 5], [7, 8, 9]]`
with `w` the content of `window[2][2]` on entry, and not the neighbourhood
`[[1, 2, 3], [4, 5, 6], [7, 8, 9]]` of the last three rows and columns. -/
theorem sliding_window_skewed (window0 : Nat → Nat → Nat) :
    ∃ st, sobel_after window0 [1, 2, 3, 4, 5, 6, 7, 8, 9] [] ((3 : Nat) : Int) ((3 : Nat) : Int) 9
        = some st ∧
      st.window = [[0, window0 2 2, 1], [3, 4, 5], [7, 8, 9]] ∧
      get2 st.window 1 2 ≠ [1, 2, 3, 4, 5, 6, 7, 8, 9].getD ((2 - 2 + 1) * 3 + (2 - 2 + 2)) 0 := by
  refine ⟨_, sobel_after_closed window0 3 3 (by decide) (by decide) [1, 2, 3, 4, 5, 6, 7, 8, 9] []
    9 (by decide), ?_⟩
  simp only []
  have e : array2 3 3 (window_after window0 [1, 2, 3, 4, 5, 6, 7, 8, 9] 3 9) =
      [[0, window0 2 2, 1], [3, 4, 5], [7, 8, 9]] := by
    rw [array2_3x3]
    simp [window_after, inserted, ins0, ins1, prev1, prev2]
  rw [e]
  refine ⟨rfl, ?_⟩
  show (5 : Nat) ≠ 6
  decide

/-- C17, the code on the 3x3 image with samples 1..9: when the sample at
`(row, col) = (2, 2)` is about to be processed, `line_buffer[1][2]` holds
`5 = L[1][1]` and `line_buffer[0][2]` holds `1 = L[0][0]`, not `L[1][2] = 6`
and `L[0][2] = 3`. -/
theorem line_buffer_stale (window0 : Nat → Nat → Nat) :
    ∃ st, sobel_after window0 [1, 2, 3, 4, 5, 6, 7, 8, 9] [] ((3 : Nat) : Int) ((3 : Nat) : Int) 8
        = some st ∧
      get2 st.line_buffer 1 2 = 5 ∧ get2 st.line_buffer 0 2 = 1 ∧
      [1, 2, 3, 4, 5, 6, 7, 8, 9].getD ((2 - 1) * 3 + 2) 0 = 6 ∧
      [1, 2, 3, 4, 5, 6, 7, 8, 9].getD ((2 - 2) * 3 + 2) 0 = 3 := by
  refine ⟨_, sobel_after_closed window0 3 3 (by decide) (by decide) [1, 2, 3, 4, 5, 6, 7, 8, 9] []
    8 (by decide), ?_⟩
  simp only []
  rw [get2_array2 2 MAX_WIDTH _ 1 2 (by decide) (by decide),
    get2_array2 2 MAX_WIDTH _ 0 2 (by decide) (by decide)]
  refine ⟨?_, ?_, by decide, by decide⟩
  · simp [line_buffer_after, evicted, prev2]
  · simp [line_buffer_after, evicted, prev1, ins1, prev2]

/-- C13, the code on the 3x3 image whose samples all are 0: with the window
holding zeros on entry the sample written is 0, with the window holding 255 in
every cell on entry it is 255. -/
theorem window_not_cleared :
    (sobel_process (fun _ _ => 0) (List.replicate 9 0) [] 3 3).map
        (fun st => st.stream_edge_output) = some [0] ∧
      (sobel_process (fun _ _ => 255) (List.replicate 9 0) [] 3 3).map
        (fun st => st.stream_edge_output) = some [255] := by
  refine ⟨by decide, by decide⟩

/-- The state of `sobel_process` on return, in closed form. -/
theorem sobel_process_closed (window0 : Nat → Nat → Nat) (H W : Nat) (hW : 0 < W)
    (hW' : W ≤ MAX_WIDTH) (hrep : H * W < 2147483648) (s out : List Nat)
    (hs : H * W ≤ s.length) :
    sobel_process window0 s out H W = some
      { line_buffer := array2 2 MAX_WIDTH (line_buffer_after window0 s W (H * W)),
        window := array2 3 3 (window_after window0 s W (H * W)),
        stream_grayscale := s.drop (H * W),
        stream_edge_output := out ++ ((List.range (H * W)).filter (interior H W)).map
          (fun i => edge_pixel_of (array2 3 3 (window_after window0 s W (i + 1)))),
        emit_log := (List.range (H * W)).filter (interior H W) } := by
  have hwr : (wrap32 ((H : Int) * (W : Int))).toNat = H * W := by
    rw [wrap32_of_lt _ (by positivity) (by exact_mod_cast hrep)]
    exact_mod_cast Int.toNat_natCast (H * W)
  have h := sobel_after_closed window0 H W hW hW' s out (H * W) hs
  unfold sobel_process sobel_after at *
  simp only [hwr]
  exact h

theorem sobel_process_output (window0 : Nat → Nat → Nat) (H W : Nat) (hW : 0 < W)
    (hW' : W ≤ MAX_WIDTH) (hrep : H * W < 2147483648) (s out : List Nat)
    (hs : H * W ≤ s.length) :
    ∃ st, sobel_process window0 s out H W = some st ∧
      st.stream_edge_output = out ++ ((List.range (H * W)).filter (interior H W)).map
          (fun i => edge_pixel_of (array2 3 3 (window_after window0 s W (i + 1)))) ∧
      st.emit_log = (List.range (H * W)).filter (interior H W) ∧
      st.stream_grayscale = s.drop (H * W) ∧
      st.window = array2 3 3 (window_after window0 s W (H * W)) :=
  ⟨_, sobel_process_closed window0 H W hW hW' hrep s out hs, rfl, rfl, rfl, rfl⟩

theorem getD_map_of_getElem? {α : Type} (f : Nat → α) (L : List Nat) (k i : Nat) (d : α)
    (h : L[k]? = some i) : (L.map f).getD k d = f i := by
  rw [List.getD_eq_getElem?_getD, List.getElem?_map, h]
  rfl

theorem step_edge_window (window0 : Nat → Nat → Nat) :
    array2 3 3 (window_after window0
      [0, 0, 255, 255, 255, 0, 0, 255, 255, 255, 0, 0, 255, 255, 255,
        0, 0, 255, 255, 255, 0, 0, 255, 255, 255] 5 (8 + 1))
      = [[0, 0, 0], [0, 0, 255], [0, 255, 255]] := by
  rw [array2_3x3]
  simp [window_after, inserted, ins0, ins1, prev1, prev2]

theorem interior_5x5 :
    (List.range (5 * 5)).filter (interior 5 5) = [6, 7, 8, 11, 12, 13, 16, 17, 18] := by
  decide

/-- C15, the code on the 5x5 vertical step edge (columns 0..1 at 0, columns
2..4 at 255): whatever the window holds on entry, nine samples are written and
the third one, at interior row 1 and interior column 3, is 255 and not 0; with
the window holding zeros on entry all nine samples are 255. -/
theorem step_edge_column_3_nonzero :
    (∀ window0 : Nat → Nat → Nat,
      ∃ st, sobel_process window0
          [0, 0, 255, 255, 255, 0, 0, 255, 255, 255, 0, 0, 255, 255, 255,
            0, 0, 255, 255, 255, 0, 0, 255, 255, 255] [] ((5 : Nat) : Int) ((5 : Nat) : Int)
          = some st ∧
        st.stream_edge_output.length = 9 ∧ st.stream_edge_output.getD 2 0 = 255) ∧
      (sobel_process (fun _ _ => 0)
          [0, 0, 255, 255, 255, 0, 0, 255, 255, 255, 0, 0, 255, 255, 255,
            0, 0, 255, 255, 255, 0, 0, 255, 255, 255] [] 5 5).map
          (fun st => st.stream_edge_output)
        = some [255, 255, 255, 255, 255, 255, 255, 255, 255] := by
  refine ⟨?_, by decide⟩
  intro window0
  obtain ⟨st, h1, h2, _, _, _⟩ := sobel_process_output window0 5 5 (by decide) (by decide)
    (by decide) [0, 0, 255, 255, 255, 0, 0, 255, 255, 255, 0, 0, 255, 255, 255,
      0, 0, 255, 255, 255, 0, 0, 255, 255, 255] [] (by decide)
  refine ⟨st, h1, ?_, ?_⟩
  · rw [h2, interior_5x5, List.nil_append, List.length_map]
    rfl
  · rw [h2, interior_5x5, List.nil_append, getD_map_of_getElem? _ _ 2 8 0 rfl, step_edge_window]
    decide

/-! ## Lemmas on the test bench helpers -/

theorem unpack_slots_upto (wd i M : Nat) (u : List Nat) (hlen : M ≤ u.length) (m : Nat) :
    ∃ u', (List.range m).foldlM (unpack_slot wd i (M : Int)) u = some u' ∧
      u'.length = u.length ∧
      ∀ k, u'[k]? =
        if 16 * i ≤ k ∧ k < 16 * i + m ∧ k < M then some (slot wd (k - 16 * i)) else u[k]? := by
  induction m with
  | zero =>
    refine ⟨u, by simp, rfl, ?_⟩
    intro k
    rw [if_neg (by omega)]
  | succ m ih =>
    obtain ⟨u1, h1, h2, h3⟩ := ih
    rw [List.range_succ, List.foldlM_append, h1]
    have hidx : (i : Int) * (PIXELS_PER_BURST : Int) + (m : Int) = ((16 * i + m : Nat) : Int) := by
      simp [PIXELS_PER_BURST, WIDE_BUS_WIDTH]; ring
    by_cases hc : 16 * i + m < M
    · have hci : ((16 * i + m : Nat) : Int) < (M : Int) := by omega
      have hb : 16 * i + m < u1.length := by omega
      refine ⟨u1.set (16 * i + m) (slot wd m), ?_, by simp [h2], ?_⟩
      · simp only [List.foldlM_cons, List.foldlM_nil, bind, Option.bind, unpack_slot, hidx, hci,
          if_true, Int.toNat_natCast, hb, pure]
      · intro k
        rw [List.getElem?_set, h3 k]
        by_cases hk : 16 * i + m = k
        · subst hk
          rw [if_pos rfl, if_pos hb, if_pos (by omega)]
          congr 2
          omega
        · rw [if_neg hk]
          by_cases hk2 : 16 * i ≤ k ∧ k < 16 * i + m ∧ k < M
          · rw [if_pos hk2, if_pos (by omega)]
          · rw [if_neg hk2, if_neg (by omega)]
    · have hci : ¬ (((16 * i + m : Nat) : Int) < (M : Int)) := by omega
      refine ⟨u1, ?_, h2, ?_⟩
      · simp only [List.foldlM_cons, List.foldlM_nil, bind, Option.bind, unpack_slot, hidx, hci,
          if_false, pure]
      · intro k
        rw [h3 k]
        by_cases hk2 : 16 * i ≤ k ∧ k < 16 * i + m ∧ k < M
        · rw [if_pos hk2, if_pos (by omega)]
        · rw [if_neg hk2, if_neg (by omega)]

theorem unpack_loop_some (packed : List Nat) (M : Nat) (n : Nat) :
    ∀ (i : Nat) (u : List Nat), i + n ≤ packed.length → M ≤ u.length →
      ∃ u', unpack_loop packed (M : Int) i n u = some u' ∧ u'.length = u.length ∧
        ∀ k, u'[k]? =
          if 16 * i ≤ k ∧ k < 16 * (i + n) ∧ k < M
          then some (slot (packed.getD (k / 16) 0) (k % 16)) else u[k]? := by
  induction n with
  | zero =>
    intro i u _ _
    refine ⟨u, rfl, rfl, ?_⟩
    intro k
    rw [if_neg (by omega)]
  | succ n ih =>
    intro i u hp hu
    have hi : i < packed.length := by omega
    obtain ⟨u1, h1, h2, h3⟩ := unpack_slots_upto packed[i] i M u hu 16
    obtain ⟨u2, g1, g2, g3⟩ := ih (i + 1) u1 (by omega) (by omega)
    refine ⟨u2, ?_, by omega, ?_⟩
    · have e : PIXELS_PER_BURST = 16 := rfl
      simp only [unpack_loop, List.getElem?_eq_getElem hi, e, h1, g1]
    · intro k
      rw [g3 k, h3 k]
      by_cases hk1 : 16 * (i + 1) ≤ k ∧ k < 16 * (i + 1 + n) ∧ k < M
      · rw [if_pos hk1, if_pos (by omega)]
      · rw [if_neg hk1]
        by_cases hk2 : 16 * i ≤ k ∧ k < 16 * i + 16 ∧ k < M
        · rw [if_pos hk2, if_pos (by omega)]
          have e1 : k / 16 = i := by omega
          have e2 : k % 16 = k - 16 * i := by omega
          rw [e1, e2]
          simp [List.getD_eq_getElem?_getD, List.getElem?_eq_getElem hi]
        · rw [if_neg hk2, if_neg (by omega)]

/-- A run of `unpack_image_data` for `M` slots (`M + 15` representable as
`int`) on arrays that are large enough. -/
theorem unpack_image_data_some (packed : List Nat) (M : Nat) (hM : M + 15 < 2147483648)
    (u : List Nat) (hp : (M + 15) / 16 ≤ packed.length) (hu : M ≤ u.length) :
    ∃ u', unpack_image_data packed u M = some u' ∧ u'.length = u.length ∧
      ∀ k, k < M → u'[k]? = some (slot (packed.getD (k / 16) 0) (k % 16)) := by
  have hb : (Int.tdiv (wrap32 ((M : Int) + (PIXELS_PER_BURST : Int) - 1))
      (PIXELS_PER_BURST : Int)).toNat = (M + 15) / 16 := by
    have e : (M : Int) + (PIXELS_PER_BURST : Int) - 1 = ((M + 15 : Nat) : Int) := by
      simp [PIXELS_PER_BURST, WIDE_BUS_WIDTH]; omega
    have e16 : (PIXELS_PER_BURST : Int) = ((16 : Nat) : Int) := rfl
    rw [e, wrap32_of_lt _ (by positivity) (by exact_mod_cast hM), e16, ← Int.ofNat_tdiv]
    exact Int.toNat_natCast _
  obtain ⟨u', h1, h2, h3⟩ := unpack_loop_some packed M ((M + 15) / 16) 0 u (by omega) hu
  refine ⟨u', ?_, h2, ?_⟩
  · unfold unpack_image_data
    simp only [hb]
    exact h1
  · intro k hk
    rw [h3 k, if_pos (by omega)]
theorem written_buffer_some (out_img : List Nat) (log : List (Nat × Nat)) :
    ∀ n, log.map Prod.fst = List.range n → n ≤ out_img.length →
      ∃ b, written_buffer out_img log = some b ∧ b.length = out_img.length ∧
        ∀ j, b[j]? = if j < n then (log[j]?).map Prod.snd else out_img[j]? := by
  induction log using List.reverseRecOn with
  | nil =>
    intro n hn _
    have h0 : n = 0 := by
      have := congrArg List.length hn
      simpa using this.symm
    subst h0
    exact ⟨out_img, rfl, rfl, by intro j; simp⟩
  | append_singleton l a ih =>
    intro n hn hlen
    have hl : l.length + 1 = n := by
      have := congrArg List.length hn
      simpa using this
    subst hl
    rw [List.map_append, List.range_succ] at hn
    have hsplit := List.append_inj hn (by simp)
    obtain ⟨b1, h1, h2, h3⟩ := ih l.length hsplit.1 (by omega)
    have ha : a.1 = l.length := by simpa using hsplit.2
    have hb : a.1 < b1.length := by omega
    refine ⟨b1.set a.1 a.2, ?_, by simp [h2], ?_⟩
    · unfold written_buffer at h1 ⊢
      rw [List.foldlM_append, h1]
      simp only [List.foldlM_cons, List.foldlM_nil, bind, Option.bind, hb, if_true, pure]
    · intro j
      rw [List.getElem?_set, h3 j, ha]
      by_cases hj : l.length = j
      · subst hj
        rw [if_pos rfl, if_pos (by omega), if_pos (by omega)]
        simp
      · rw [if_neg hj]
        by_cases hj2 : j < l.length
        · rw [if_pos hj2, if_pos (by omega), List.getElem?_append_left hj2]
        · rw [if_neg hj2, if_neg (by omega)]
/-- The slots that the host finds in `out_img` after `write_and_pack`, read
back with `unpack_image_data`. -/
theorem write_unpack_slots (M : Nat) (hM : M + 15 < 2147483648) (s : List Nat)
    (hs : M ≤ s.length) (out_img unpacked : List Nat) (ho : (M + 15) / 16 ≤ out_img.length)
    (hu : M ≤ unpacked.length) :
    ∃ log out u, write_and_pack s M = some (log, s.drop M) ∧
      log.map Prod.fst = List.range ((M + 15) / 16) ∧
      written_buffer out_img log = some out ∧
      unpack_image_data out unpacked M = some u ∧
      ∀ k, k < M → u[k]? = some (replicate_pixel (s.getD k 0)) := by
  obtain ⟨log, h1, h2, h3⟩ := write_and_pack_some M hM s hs
  obtain ⟨out, g1, g2, g3⟩ := written_buffer_some out_img log ((M + 15) / 16) h2 ho
  obtain ⟨u, k1, _, k3⟩ := unpack_image_data_some out M hM unpacked (by omega) hu
  refine ⟨log, out, u, h1, h2, g1, k1, ?_⟩
  intro k hk
  have hj : k / 16 < (M + 15) / 16 := by omega
  obtain ⟨wd, e1, e2⟩ := h3 (k / 16) hj
  have eo : out.getD (k / 16) 0 = wd := by
    rw [List.getD_eq_getElem?_getD, g3 (k / 16), if_pos hj, e1]
    rfl
  rw [k3 k hk, eo, e2 (k % 16), if_pos (by omega)]
  congr 3
  omega

/-- C11: for every `M >= 0` (`M + 15` representable as `int`) and every
sequence `s[0..M-1]` of 8-bit magnitudes, the words written by
`write_and_pack`, unpacked with `unpack_image_data(out, unpacked, M)`, give
slots whose low byte is the sequence: `(unpacked[k] & 0xFF) = s[k]` for every
`k < M`. -/
theorem pack_unpack_round_trip (M : Nat) (hM : M + 15 < 2147483648) (s : List Nat)
    (hs : s.length = M) (h8 : ∀ x ∈ s, x ≤ 255) (out_img unpacked : List Nat)
    (ho : (M + 15) / 16 ≤ out_img.length) (hu : M ≤ unpacked.length) :
    ∃ log out u, write_and_pack s M = some (log, []) ∧
      written_buffer out_img log = some out ∧
      unpack_image_data out unpacked M = some u ∧
      ∀ k, k < M → ∃ v, u[k]? = some v ∧ v &&& 0xFF = s.getD k 0 := by
  obtain ⟨log, out, u, h1, _, h3, h4, h5⟩ :=
    write_unpack_slots M hM s (by omega) out_img unpacked ho hu
  refine ⟨log, out, u, ?_, h3, h4, ?_⟩
  · rw [h1, ← hs]; simp
  · intro k hk
    have hlt : k < s.length := by omega
    have hle : s.getD k 0 ≤ 255 := by
      rw [List.getD_eq_getElem?_getD, List.getElem?_eq_getElem hlt]
      exact h8 _ (List.getElem_mem hlt)
    refine ⟨_, h5 k hk, ?_⟩
    rw [replicate_pixel_eq _ hle, and_255]
    omega

/-- Witness of C11 for three magnitudes. -/
theorem pack_unpack_round_trip_witness :
    ∃ log out u, write_and_pack [7, 0, 255] ((3 : Nat) : Int) = some (log, []) ∧
      written_buffer [0] log = some out ∧
      unpack_image_data out [0, 0, 0] ((3 : Nat) : Int) = some u ∧
      ∀ k, k < 3 → ∃ v, u[k]? = some v ∧ v &&& 0xFF = [7, 0, 255].getD k 0 :=
  pack_unpack_round_trip 3 (by decide) [7, 0, 255] (by decide) (by decide) [0] [0, 0, 0]
    (by decide) (by decide)

/-! ## Claims on degenerate dimensions -/

/-- C12, the code at `height = width = 1`: `output_pixels_to_write` is
`(1 - 2) * (1 - 2) = 1`, so after `sobel_process` has written no sample
`write_and_pack` is asked for one sample and reads the empty edge stream:
`image_process` has no result. -/
theorem degenerate_1x1_reads_empty_stream (window0 : Nat → Nat → Nat) (w : Nat)
    (rest : List Nat) :
    wrap32 ((((1 : Nat) : Int) - 2) * (((1 : Nat) : Int) - 2)) = 1 ∧
      (∃ gray st, read_and_grayscale (w :: rest) [] 1 = some gray ∧
        sobel_process window0 gray [] ((1 : Nat) : Int) ((1 : Nat) : Int) = some st ∧
        st.stream_edge_output = [] ∧
        write_and_pack st.stream_edge_output 1 = none) ∧
      image_process window0 (w :: rest) ((1 : Nat) : Int) ((1 : Nat) : Int) = none := by
  have hopw : wrap32 ((((1 : Nat) : Int) - 2) * (((1 : Nat) : Int) - 2)) = 1 := by decide
  have htb : Int.tdiv (wrap32 (wrap32 (((1 : Nat) : Int) * ((1 : Nat) : Int))
      + (PIXELS_PER_BURST : Int) - 1)) (PIXELS_PER_BURST : Int) = 1 := by decide
  obtain ⟨samples, r1, r2, _⟩ := read_burst_loop_some (w :: rest) 1 0 [] (by simp)
  have hr : read_and_grayscale (w :: rest) [] 1 = some samples := by
    unfold read_and_grayscale
    simpa using r1
  obtain ⟨st, s1, s2, _, _, _⟩ := sobel_process_output window0 1 1 (by decide) (by decide)
    (by decide) samples [] (by omega)
  have hout : st.stream_edge_output = [] := by
    rw [s2, filter_interior_nil 1 1 (by omega)]
    rfl
  have hw : write_and_pack st.stream_edge_output 1 = none := by
    rw [hout]
    decide
  refine ⟨hopw, ⟨samples, st, hr, s1, hout, hw⟩, ?_⟩
  unfold image_process
  simp only [htb, hopw, hr, s1, hw]

theorem pack_slots_upto (unpacked : List Nat) (i M : Nat) (hlen : M ≤ unpacked.length)
    (m : Nat) :
    ∃ wd, (List.range m).foldlM (pack_slot unpacked i (M : Int)) 0 = some wd ∧
      ∀ q, slot wd q =
        if q < m ∧ 16 * i + q < M then unpacked.getD (16 * i + q) 0 % 2 ^ 32 else 0 := by
  induction m with
  | zero => exact ⟨0, by simp, by intro q; simp [slot_zero]⟩
  | succ m ih =>
    obtain ⟨wd, h1, h2⟩ := ih
    rw [List.range_succ, List.foldlM_append, h1]
    have hidx : (i : Int) * (PIXELS_PER_BURST : Int) + (m : Int) = ((16 * i + m : Nat) : Int) := by
      simp [PIXELS_PER_BURST, WIDE_BUS_WIDTH]; ring
    by_cases hc : 16 * i + m < M
    · have hci : ((16 * i + m : Nat) : Int) < (M : Int) := by omega
      have hb : 16 * i + m < unpacked.length := by omega
      refine ⟨set_slot wd m unpacked[16 * i + m], ?_, ?_⟩
      · simp only [List.foldlM_cons, List.foldlM_nil, bind, Option.bind, pack_slot, hidx, hci,
          if_true, Int.toNat_natCast, List.getElem?_eq_getElem hb, pure]
      · intro q
        rw [slot_set_slot, h2]
        by_cases hq : q = m
        · subst hq
          rw [if_pos rfl, if_pos (by omega)]
          simp [List.getD_eq_getElem?_getD, List.getElem?_eq_getElem hb]
        · rw [if_neg hq]
          by_cases hq2 : q < m ∧ 16 * i + q < M
          · rw [if_pos hq2, if_pos (by omega)]
          · rw [if_neg hq2, if_neg (by omega)]
    · have hci : ¬ (((16 * i + m : Nat) : Int) < (M : Int)) := by omega
      refine ⟨wd, ?_, ?_⟩
      · simp only [List.foldlM_cons, List.foldlM_nil, bind, Option.bind, pack_slot, hidx, hci,
          if_false, pure]
      · intro q
        rw [h2]
        by_cases hq2 : q < m ∧ 16 * i + q < M
        · rw [if_pos hq2, if_pos (by omega)]
        · rw [if_neg hq2, if_neg (by omega)]

theorem pack_loop_some (unpacked : List Nat) (M : Nat) (hlen : M ≤ unpacked.length) (n : Nat) :
    ∀ (i : Nat) (packed : List Nat), i + n ≤ packed.length →
      ∃ P, pack_loop unpacked (M : Int) i n packed = some P ∧ P.length = packed.length ∧
        (∀ j, i ≤ j → j < i + n → ∃ wd, P[j]? = some wd ∧
          ∀ q, slot wd q =
            if q < 16 ∧ 16 * j + q < M then unpacked.getD (16 * j + q) 0 % 2 ^ 32 else 0) ∧
        (∀ j, ¬ (i ≤ j ∧ j < i + n) → P[j]? = packed[j]?) := by
  induction n with
  | zero =>
    intro i packed _
    exact ⟨packed, rfl, rfl, by intro j h1 h2; omega, by intro j _; rfl⟩
  | succ n ih =>
    intro i packed hp
    have hi : i < packed.length := by omega
    obtain ⟨wd, h1, h2⟩ := pack_slots_upto unpacked i M hlen 16
    obtain ⟨P, g1, g2, g3, g4⟩ := ih (i + 1) (packed.set i wd) (by simp; omega)
    refine ⟨P, ?_, by simpa using g2, ?_, ?_⟩
    · have e : PIXELS_PER_BURST = 16 := rfl
      simp only [pack_loop, e, h1, hi, if_true, g1]
    · intro j hj1 hj2
      by_cases hji : j = i
      · subst hji
        refine ⟨wd, ?_, h2⟩
        rw [g4 j (by omega), List.getElem?_set]
        simp [hi]
      · exact g3 j (by omega) (by omega)
    · intro j hj
      rw [g4 j (by omega), List.getElem?_set]
      have : ¬ i = j := by omega
      rw [if_neg this]

/-- A run of `pack_image_data` for `M` slots (`M + 15` representable as `int`)
on arrays that are large enough. -/
theorem pack_image_data_some (unpacked packed : List Nat) (M : Nat)
    (hM : M + 15 < 2147483648) (hu : M ≤ unpacked.length)
    (hp : (M + 15) / 16 ≤ packed.length) :
    ∃ P, pack_image_data unpacked packed M = some P ∧ P.length = packed.length ∧
      (∀ j, j < (M + 15) / 16 → ∃ wd, P[j]? = some wd ∧
        ∀ q, slot wd q =
          if q < 16 ∧ 16 * j + q < M then unpacked.getD (16 * j + q) 0 % 2 ^ 32 else 0) ∧
      (∀ j, (M + 15) / 16 ≤ j → P[j]? = packed[j]?) := by
  have hb : (Int.tdiv (wrap32 ((M : Int) + (PIXELS_PER_BURST : Int) - 1))
      (PIXELS_PER_BURST : Int)).toNat = (M + 15) / 16 := by
    have e : (M : Int) + (PIXELS_PER_BURST : Int) - 1 = ((M + 15 : Nat) : Int) := by
      simp [PIXELS_PER_BURST, WIDE_BUS_WIDTH]; omega
    have e16 : (PIXELS_PER_BURST : Int) = ((16 : Nat) : Int) := rfl
    rw [e, wrap32_of_lt _ (by positivity) (by exact_mod_cast hM), e16, ← Int.ofNat_tdiv]
    exact Int.toNat_natCast _
  obtain ⟨P, h1, h2, h3, h4⟩ := pack_loop_some unpacked M hu ((M + 15) / 16) 0 packed (by omega)
  refine ⟨P, ?_, h2, ?_, ?_⟩
  · unfold pack_image_data
    simp only [hb]
    exact h1
  · intro j hj
    exact h3 j (by omega) (by omega)
  · intro j hj
    exact h4 j (by omega)
set_option maxRecDepth 100000 in
theorem grey_slot_luma :
    ∀ val, val < 256 →
      ((((val <<< 16) ||| (val <<< 8) ||| val) % 2 ^ 32 % 2 ^ 32 % 2 ^ 24 / 2 ^ 16) * 77
        + (((val <<< 16) ||| (val <<< 8) ||| val) % 2 ^ 32 % 2 ^ 32 % 2 ^ 24 / 2 ^ 8 % 256) * 150
        + (((val <<< 16) ||| (val <<< 8) ||| val) % 2 ^ 32 % 2 ^ 32 % 2 ^ 24 % 256) * 29) / 256
        = val := by
  decide

theorem test_input_getD (k : Nat) (hk : k < 4096) :
    test_input.getD k 0 = ((k % 256) <<< 16 ||| (k % 256) <<< 8 ||| (k % 256)) % 2 ^ 32 := by
  unfold test_input
  rw [map_range_getD _ _ _ _ (by omega)]

/-- The grayscale stream of the test bench: pixel `i` has luma `i % 256`. -/
theorem test_gray_stream :
    ∃ P g, pack_image_data test_input (List.replicate 256 0) (64 * 64) = some P ∧
      P.length = 256 ∧
      read_and_grayscale P [] 256 = some g ∧ g.length = 4096 ∧
      ∀ k, k < 4096 → g.getD k 0 = k % 256 := by
  have e1 : ((64 : Int) * 64) = ((4096 : Nat) : Int) := by norm_num
  have hlen : test_input.length = 4096 := by
    unfold test_input
    rw [List.length_map, List.length_range]
  have hrep : (List.replicate 256 0).length = 256 := List.length_replicate 256 0
  obtain ⟨P, h1, h2, h3, _⟩ := pack_image_data_some test_input (List.replicate 256 0) 4096
    (by decide) (by omega) (by rw [hrep])
  have hP : P.length = 256 := by rw [h2, hrep]
  obtain ⟨g, r1, r2, r3⟩ := read_burst_loop_some P 256 0 [] (by omega)
  refine ⟨P, g, by rw [e1]; exact h1, hP, ?_, by omega, ?_⟩
  · rw [List.nil_append] at r1
    have e256 : (256 : Int).toNat = 256 := rfl
    unfold read_and_grayscale
    rw [e256]
    exact r1
  · intro k hk
    have hk16 : k / 16 < (4096 + 15) / 16 := by omega
    obtain ⟨wd, w1, w2⟩ := h3 (k / 16) hk16
    have ew : P.getD (k / 16) 0 = wd := by
      rw [List.getD_eq_getElem?_getD, w1]; rfl
    have es : slot wd (k % 16) = test_input.getD k 0 % 2 ^ 32 := by
      have ek : 16 * (k / 16) + k % 16 = k := by omega
      rw [w2 (k % 16), if_pos (by omega), ek]
    rw [List.getD_eq_getElem?_getD, r3 k (by omega), Nat.zero_add, ew]
    show unpack_pixel wd (k % 16) = k % 256
    rw [unpack_pixel_low24, es, test_input_getD k hk]
    exact grey_slot_luma (k % 256) (Nat.mod_lt _ (by decide))
theorem test_first_window (window0 : Nat → Nat → Nat) (g : List Nat) (h0 : g.getD 0 0 = 0)
    (h63 : g.getD 63 0 = 63) (h64 : g.getD 64 0 = 64) (h65 : g.getD 65 0 = 65) :
    array2 3 3 (window_after window0 g 64 (65 + 1)) =
      [[0, window0 1 2, 0], [0, window0 2 2, 0], [63, 64, 65]] := by
  rw [array2_3x3]
  rw [List.getD_eq_getElem?_getD] at h0 h63 h64 h65
  simp [window_after, inserted, ins0, ins1, prev1, prev2, h0, h63, h64, h65]

theorem test_first_edge (a b : Nat) :
    1 ≤ edge_pixel_of [[0, a, 0], [0, b, 0], [63, 64, 65]] ∧
      edge_pixel_of [[0, a, 0], [0, b, 0], [63, 64, 65]] ≤ 255 := by
  have h := edge_pixel_of_eq_min [[0, a, 0], [0, b, 0], [63, 64, 65]]
  rw [convolve_S_KX, convolve_S_KY, Int.shiftRight_eq_div_pow] at h
  simp only [get2, List.getD_cons_zero, List.getD_cons_succ, MAG_SCALE_SHIFT] at h
  have h0 : 0 ≤ |((0 : Nat) : Int) + 2 * (a : Int) + ((0 : Nat) : Int)
      - (((63 : Nat) : Int) + 2 * ((64 : Nat) : Int) + ((65 : Nat) : Int))| := abs_nonneg _
  generalize |((0 : Nat) : Int) + 2 * (a : Int) + ((0 : Nat) : Int)
      - (((63 : Nat) : Int) + 2 * ((64 : Nat) : Int) + ((65 : Nat) : Int))| = y at h h0
  have e : |((0 : Nat) : Int) - ((0 : Nat) : Int) + 2 * (((0 : Nat) : Int) - ((0 : Nat) : Int))
      + (((65 : Nat) : Int) - ((63 : Nat) : Int))| = 2 := by norm_num
  rw [e] at h
  have h2 : (1 : Int) ≤ (2 + y) / ((2 ^ 1 : Nat) : Int) := by
    norm_num
    omega
  have hle : (1 : Int) ≤ min 255 ((2 + y) / ((2 ^ 1 : Nat) : Int)) := le_min (by norm_num) h2
  have hge : min (255 : Int) ((2 + y) / ((2 ^ 1 : Nat) : Int)) ≤ 255 := min_le_left _ _
  rw [← h] at hle hge
  exact ⟨by exact_mod_cast hle, by exact_mod_cast hge⟩

/-- The edge stream of the test bench: 3844 samples, the first one in 1..255. -/
theorem test_edge_stream (window0 : Nat → Nat → Nat) (g : List Nat) (hlen : g.length = 4096)
    (hg : ∀ k, k < 4096 → g.getD k 0 = k % 256) :
    ∃ st, sobel_process window0 g [] ((64 : Nat) : Int) ((64 : Nat) : Int) = some st ∧
      st.stream_edge_output.length = 3844 ∧
      1 ≤ st.stream_edge_output.getD 0 0 ∧ st.stream_edge_output.getD 0 0 ≤ 255 := by
  obtain ⟨st, h1, h2, _, _, _⟩ := sobel_process_output window0 64 64 (by decide) (by decide)
    (by decide) g [] (by omega)
  have hf := filter_interior_eq 64 64 (by decide) (by decide)
  have hL0 : ((List.range (64 * 64)).filter (interior 64 64))[0]? = some 65 := by
    rw [hf, List.getElem?_map, List.getElem?_range (by decide)]
    rfl
  refine ⟨st, h1, ?_, ?_⟩
  · rw [h2, List.nil_append, List.length_map, hf, List.length_map, List.length_range]
  · rw [h2, List.nil_append, getD_map_of_getElem? _ _ 0 65 0 hL0,
      test_first_window window0 g (hg 0 (by decide)) (hg 63 (by decide)) (hg 64 (by decide))
        (hg 65 (by decide))]
    exact test_first_edge _ _
theorem test_image_process (window0 : Nat → Nat → Nat) :
    ∃ (P : List Nat) (st : SobelState) (log : List (Nat × Nat)),
      pack_image_data test_input (List.replicate 256 0) (64 * 64) = some P ∧
      image_process window0 P 64 64 = some
        { out_log := log, stream_grayscale := st.stream_grayscale,
          stream_edge_output := st.stream_edge_output.drop 3844, emit_log := st.emit_log } ∧
      ∃ out u, written_buffer (List.replicate 241 0) log = some out ∧
        unpack_image_data out (List.replicate 3844 0) ((64 - 2) * (64 - 2)) = some u ∧
        ∃ v, u[0]? = some v ∧ v ≠ 0 := by
  obtain ⟨P, g, hpack, _, hread, hlen, hg⟩ := test_gray_stream
  obtain ⟨st, hsob, hslen, hlo, hhi⟩ := test_edge_stream window0 g hlen hg
  have hrep1 : (List.replicate 241 0).length = 241 := List.length_replicate 241 0
  have hrep2 : (List.replicate 3844 0).length = 3844 := List.length_replicate 3844 0
  obtain ⟨log, out, u, hwp, _, hwb, hun, hu⟩ := write_unpack_slots 3844 (by decide)
    st.stream_edge_output (by omega) (List.replicate 241 0) (List.replicate 3844 0)
    (by rw [hrep1]) (by rw [hrep2])
  have hu0 := hu 0 (by decide)
  rw [replicate_pixel_eq _ hhi] at hu0
  have e64 : ((64 : Nat) : Int) = 64 := rfl
  rw [e64] at hsob
  have htb : Int.tdiv (wrap32 (wrap32 ((64 : Int) * 64) + (PIXELS_PER_BURST : Int) - 1))
      (PIXELS_PER_BURST : Int) = 256 := by decide
  have hopw : wrap32 (((64 : Int) - 2) * (64 - 2)) = ((3844 : Nat) : Int) := by decide
  have hsz : ((64 : Int) - 2) * (64 - 2) = ((3844 : Nat) : Int) := by decide
  refine ⟨P, st, log, hpack, ?_, out, u, hwb, by rw [hsz]; exact hun, _, hu0, by omega⟩
  unfold image_process
  simp only [htb, hopw, hread, hsob, hwp]

/-! ## Claim on the test bench -/

/-- C14: for the test bench's input, the 64x64 image whose pixel `i` is the
grey value `0x00VVVVVV` with `V = i % 256`, packed by `pack_image_data`, the
first slot that `unpack_image_data` recovers from the output of
`image_process(input, output, 64, 64)` exists and is not zero, whatever the
kernel's window holds on entry. -/
theorem test_bench_first_slot_nonzero (window0 : Nat → Nat → Nat) :
    ∃ v, test_first_output window0 = some v ∧ v ≠ 0 := by
  obtain ⟨P, st, log, hpack, himg, out, u, hwb, hun, v, hv, hne⟩ := test_image_process window0
  refine ⟨v, ?_, hne⟩
  unfold test_first_output
  rw [hpack, Option.some_bind, himg, Option.some_bind, hwb, Option.some_bind, hun,
    Option.some_bind]
  exact hv

/-! ## The kernel on images with at least two rows and two columns -/

theorem interior_count (H W : Nat) (hH : 2 ≤ H) (hW : 2 ≤ W) :
    ((List.range (H * W)).filter (interior H W)).length = (W - 2) * (H - 2) := by
  by_cases hc : 3 ≤ H ∧ 3 ≤ W
  · rw [filter_interior_eq H W hc.1 hc.2, List.length_map, List.length_range, Nat.mul_comm]
  · rw [filter_interior_nil H W (by omega)]
    have h0 : H - 2 = 0 ∨ W - 2 = 0 := by omega
    rcases h0 with h | h <;> simp [h]

/-- The function `image_process` as a chain of its three stages. -/
theorem image_process_eq (window0 : Nat → Nat → Nat) (in_img : List Nat) (height width : Int) :
    image_process window0 in_img height width =
      (read_and_grayscale in_img []
        (Int.tdiv (wrap32 (wrap32 (height * width) + PIXELS_PER_BURST - 1))
          PIXELS_PER_BURST)).bind fun gray =>
        (sobel_process window0 gray [] height width).bind fun st =>
          (write_and_pack st.stream_edge_output (wrap32 ((width - 2) * (height - 2)))).bind
            fun os => some
              { out_log := os.1, stream_grayscale := st.stream_grayscale,
                stream_edge_output := os.2, emit_log := st.emit_log } := by
  unfold image_process
  dsimp only
  generalize read_and_grayscale in_img []
      (Int.tdiv (wrap32 (wrap32 (height * width) + PIXELS_PER_BURST - 1)) PIXELS_PER_BURST) = a
  cases a with
  | none => rfl
  | some gray =>
    simp only [Option.some_bind]
    generalize sobel_process window0 gray [] height width = b
    cases b with
    | none => rfl
    | some st =>
      simp only [Option.some_bind]
      generalize write_and_pack st.stream_edge_output (wrap32 ((width - 2) * (height - 2))) = c
      cases c with
      | none => rfl
      | some os => rfl

/-- A run of `image_process` on an image with at least two rows and two
columns, `height * width + 15` representable as `int`, and an input buffer
that holds the `ceil(height * width / 16)` words read. -/
theorem image_process_some (window0 : Nat → Nat → Nat) (H W : Nat) (hH : 2 ≤ H) (hW : 2 ≤ W)
    (hW' : W ≤ MAX_WIDTH) (hrep : H * W + 15 < 2147483648) (in_img : List Nat)
    (hin : (H * W + 15) / 16 ≤ in_img.length) :
    ∃ r, image_process window0 in_img H W = some r ∧
      r.out_log.map Prod.fst = List.range (((W - 2) * (H - 2) + 15) / 16) ∧
      r.stream_edge_output = [] ∧
      r.stream_grayscale.length = 16 * ((H * W + 15) / 16) - H * W := by
  have hlt : (W - 2) * (H - 2) ≤ H * W := Nat.mul_comm H W ▸ Nat.mul_le_mul (by omega) (by omega)
  have htp : wrap32 ((H : Int) * (W : Int)) = ((H * W : Nat) : Int) := by
    have hb : H * W < 2147483648 := by omega
    rw [wrap32_of_lt ((H : Int) * (W : Int)) (by positivity) (by exact_mod_cast hb)]
    push_cast; rfl
  have htb : Int.tdiv (wrap32 (((H * W : Nat) : Int) + (PIXELS_PER_BURST : Int) - 1))
      (PIXELS_PER_BURST : Int) = (((H * W + 15) / 16 : Nat) : Int) := by
    have e : ((H * W : Nat) : Int) + (PIXELS_PER_BURST : Int) - 1 = ((H * W + 15 : Nat) : Int) := by
      simp [PIXELS_PER_BURST, WIDE_BUS_WIDTH]; omega
    have e16 : (PIXELS_PER_BURST : Int) = ((16 : Nat) : Int) := rfl
    rw [e, wrap32_of_lt _ (by positivity) (by exact_mod_cast hrep), e16, ← Int.ofNat_tdiv]
  have hopw : wrap32 (((W : Int) - 2) * ((H : Int) - 2)) = (((W - 2) * (H - 2) : Nat) : Int) := by
    have e : ((W : Int) - 2) * ((H : Int) - 2) = (((W - 2) * (H - 2) : Nat) : Int) := by
      push_cast [Nat.cast_sub hW, Nat.cast_sub hH]; rfl
    have hb : (W - 2) * (H - 2) < 2147483648 := by omega
    rw [e, wrap32_of_lt (((W - 2) * (H - 2) : Nat) : Int) (Int.natCast_nonneg _)
      (by exact_mod_cast hb)]
  obtain ⟨samples, r1, r2, _⟩ := read_burst_loop_some in_img ((H * W + 15) / 16) 0 [] (by omega)
  have hr : read_and_grayscale in_img [] (((H * W + 15) / 16 : Nat) : Int) = some samples := by
    unfold read_and_grayscale
    rw [Int.toNat_natCast]
    simpa using r1
  obtain ⟨st, s1, s2, _, s4, _⟩ := sobel_process_output window0 H W (by omega) hW'
    (by omega) samples [] (by omega)
  have hslen : st.stream_edge_output.length = (W - 2) * (H - 2) := by
    rw [s2, List.nil_append, List.length_map, interior_count H W hH hW]
  obtain ⟨log, w1, w2, _⟩ := write_and_pack_some ((W - 2) * (H - 2)) (by omega)
    st.stream_edge_output (by omega)
  refine ⟨{ out_log := log, stream_grayscale := st.stream_grayscale,
            stream_edge_output := st.stream_edge_output.drop ((W - 2) * (H - 2)),
            emit_log := st.emit_log }, ?_, w2, ?_, ?_⟩
  · rw [image_process_eq, htp, htb, hr, Option.some_bind, s1, Option.some_bind, hopw, w1,
      Option.some_bind]
  · simp only []
    rw [List.drop_eq_nil_iff]
    omega
  · simp only []
    rw [s4, List.length_drop, r2]

/-! ## Claim on the host buffers -/

/-- C20, the code on a 3x3 image: the host allocates `bo_size_bytes = 36`
bytes, 9 slots, for each of `bo_in` and `bo_out`, which is less than one
transport word; the kernel reads word 0 of the input (16 slots, so it has no
result on the words inside `bo_in`) and writes word 0 of the output (16 slots,
a write outside the words inside `bo_out`). -/
theorem host_buffers_too_small (window0 : Nat → Nat → Nat) :
    bo_size_bytes 3 3 = 36 ∧ bo_size_bytes 3 3 / 4 = 3 * 3 ∧ bo_words 3 3 = 0 ∧
      image_process window0 (List.replicate (bo_words 3 3) 0) 3 3 = none ∧
      (∀ w : Nat, ∃ r, image_process window0 [w] ((3 : Nat) : Int) ((3 : Nat) : Int) = some r ∧
        (read_and_grayscale [w] [] 1).map List.length = some 16 ∧
        r.out_log.map Prod.fst = [0] ∧
        written_buffer (List.replicate (bo_words 3 3) 0) r.out_log = none) := by
  have hw0 : bo_words 3 3 = 0 := by decide
  refine ⟨by decide, by decide, hw0, ?_, ?_⟩
  · rw [hw0, image_process_eq]
    rfl
  · intro w
    obtain ⟨r, h1, h2, _, _⟩ := image_process_some window0 3 3 (by decide) (by decide)
      (by decide) (by decide) [w] (by simp)
    have h2' : r.out_log.map Prod.fst = [0] := h2
    have hlen16 : (read_and_grayscale [w] [] 1).map List.length = some 16 := by
      obtain ⟨samples, r1, r2, _⟩ := read_burst_loop_some [w] 1 0 [] (by simp)
      rw [List.nil_append] at r1
      have e1 : (1 : Int).toNat = 1 := rfl
      unfold read_and_grayscale
      rw [e1, r1, Option.map_some', r2]
    refine ⟨r, h1, hlen16, h2', ?_⟩
    rw [hw0]
    cases hl : r.out_log with
    | nil => rw [hl] at h2'; simp at h2'
    | cons a l =>
      rw [hl] at h2'
      have ha : a.1 = 0 := by simpa using (List.cons.inj h2').1
      simp [written_buffer, List.foldlM_cons, ha]

/-! ## The checked convolver agrees with the convolver -/

theorem array2_getElem? (m n : Nat) (f : Nat → Nat → Nat) (k : Nat) (hk : k < m) :
    (array2 m n f)[k]? = some ((List.range n).map (f k)) := by
  unfold array2
  rw [List.getElem?_map, List.getElem?_range hk]
  rfl

theorem get2_checked_array2 (m n : Nat) (f : Nat → Nat → Nat) (k l : Nat) (hk : k < m)
    (hl : l < n) : get2_checked (array2 m n f) k l = some (f k l) := by
  unfold get2_checked
  rw [array2_getElem? m n f k hk]
  simp only []
  rw [List.getElem?_map, List.getElem?_range hl]
  rfl

theorem set2_checked_array2 (m n : Nat) (f : Nat → Nat → Nat) (k l v : Nat) (hk : k < m)
    (hl : l < n) :
    set2_checked (array2 m n f) k l v = some (set2 (array2 m n f) k l v) := by
  have hrow : (array2 m n f).getD k [] = (List.range n).map (f k) := by
    rw [List.getD_eq_getElem?_getD, array2_getElem? m n f k hk]
    rfl
  unfold set2_checked set2
  rw [array2_getElem? m n f k hk, hrow]
  simp only []
  rw [if_pos (by simpa using hl)]

theorem window_shift_checked_3x3 (a00 a01 a02 a10 a11 a12 a20 a21 a22 : Nat) :
    window_shift_checked [[a00, a01, a02], [a10, a11, a12], [a20, a21, a22]] =
      some (window_shift [[a00, a01, a02], [a10, a11, a12], [a20, a21, a22]]) := by
  rfl

theorem convolve_checked_3x3 (a00 a01 a02 a10 a11 a12 a20 a21 a22 : Nat) :
    convolve_checked [[a00, a01, a02], [a10, a11, a12], [a20, a21, a22]] S_KX =
        some (convolve [[a00, a01, a02], [a10, a11, a12], [a20, a21, a22]] S_KX) ∧
      convolve_checked [[a00, a01, a02], [a10, a11, a12], [a20, a21, a22]] S_KY =
        some (convolve [[a00, a01, a02], [a10, a11, a12], [a20, a21, a22]] S_KY) := by
  exact ⟨rfl, rfl⟩

theorem edge_pixel_checked_3x3 (a00 a01 a02 a10 a11 a12 a20 a21 a22 : Nat) :
    edge_pixel_checked [[a00, a01, a02], [a10, a11, a12], [a20, a21, a22]] =
      some (edge_pixel_of [[a00, a01, a02], [a10, a11, a12], [a20, a21, a22]]) := by
  unfold edge_pixel_checked edge_pixel_of
  rw [(convolve_checked_3x3 a00 a01 a02 a10 a11 a12 a20 a21 a22).1,
    (convolve_checked_3x3 a00 a01 a02 a10 a11 a12 a20 a21 a22).2]
  rfl

theorem column_insert_checked_array2 (a00 a01 a02 a10 a11 a12 a20 a21 a22 : Nat)
    (lf : Nat → Nat → Nat) (col : Nat) (hcol : col < MAX_WIDTH) :
    column_insert_checked col ([[a00, a01, a02], [a10, a11, a12], [a20, a21, a22]],
        array2 2 MAX_WIDTH lf) =
      some (column_insert col ([[a00, a01, a02], [a10, a11, a12], [a20, a21, a22]],
        array2 2 MAX_WIDTH lf)) := by
  have c0 : ∀ lb : List (List Nat),
      column_insert_checked col ([[a00, a01, a02], [a10, a11, a12], [a20, a21, a22]], lb) =
        (get2_checked lb 0 col).bind fun v0 =>
          (set2_checked lb 0 col a12).bind fun lb1 =>
            (get2_checked lb1 1 col).bind fun v1 =>
              (set2_checked lb1 1 col a22).bind fun lb2 =>
                some ([[a00, a01, v0], [a10, a11, v1], [a20, a21, a22]], lb2) := by
    intro lb
    unfold column_insert_checked
    simp only [KERNEL_SIZE, List.range, List.range.loop, List.foldlM_cons, List.foldlM_nil]
    cases get2_checked lb 0 col with
    | none => rfl
    | some v0 =>
      simp only [Option.some_bind, bind, Option.bind]
      have s1 : set2_checked [[a00, a01, a02], [a10, a11, a12], [a20, a21, a22]] 0 2 v0 =
          some [[a00, a01, v0], [a10, a11, a12], [a20, a21, a22]] := rfl
      have g1 : get2_checked [[a00, a01, v0], [a10, a11, a12], [a20, a21, a22]] (0 + 1) 2 =
          some a12 := rfl
      simp only [s1, g1]
      cases set2_checked lb 0 col a12 with
      | none => rfl
      | some lb1 =>
        simp only []
        cases get2_checked lb1 1 col with
        | none => rfl
        | some v1 =>
          have s2 : set2_checked [[a00, a01, v0], [a10, a11, a12], [a20, a21, a22]] 1 2 v1 =
              some [[a00, a01, v0], [a10, a11, v1], [a20, a21, a22]] := rfl
          have g2 : get2_checked [[a00, a01, v0], [a10, a11, v1], [a20, a21, a22]] (1 + 1) 2 =
              some a22 := rfl
          simp only [s2, g2]
          cases set2_checked lb1 1 col a22 with
          | none => rfl
          | some lb2 => rfl
  have e0 : ∀ lb : List (List Nat),
      column_insert col ([[a00, a01, a02], [a10, a11, a12], [a20, a21, a22]], lb) =
        ([[a00, a01, get2 lb 0 col], [a10, a11, get2 (set2 lb 0 col a12) 1 col],
            [a20, a21, a22]],
          set2 (set2 lb 0 col a12) 1 col a22) := fun _ => rfl
  have s0 := set2_array2 2 MAX_WIDTH lf 0 col a12 (by decide)
  have g0 : get2 (array2 2 MAX_WIDTH lf) 0 col = lf 0 col :=
    get2_array2 2 MAX_WIDTH lf 0 col (by decide) hcol
  rw [c0, e0, g0, get2_checked_array2 2 MAX_WIDTH lf 0 col (by decide) hcol, Option.some_bind,
    set2_checked_array2 2 MAX_WIDTH lf 0 col a12 (by decide) hcol, Option.some_bind, s0,
    get2_checked_array2 2 MAX_WIDTH _ 1 col (by decide) hcol, Option.some_bind,
    set2_checked_array2 2 MAX_WIDTH _ 1 col a22 (by decide) hcol, Option.some_bind,
    get2_array2 2 MAX_WIDTH _ 1 col (by decide) hcol]

theorem sobel_step_checked_array2 (H W : Nat) (hW : 0 < W) (hW' : W ≤ MAX_WIDTH) (i : Nat)
    (wf lf : Nat → Nat → Nat) (x : Nat) (rest out lg : List Nat) :
    sobel_step_checked H W i
      { line_buffer := array2 2 MAX_WIDTH lf, window := array2 3 3 wf,
        stream_grayscale := x :: rest, stream_edge_output := out, emit_log := lg } =
      sobel_step H W i
        { line_buffer := array2 2 MAX_WIDTH lf, window := array2 3 3 wf,
          stream_grayscale := x :: rest, stream_edge_output := out, emit_log := lg } := by
  have hW0 : (W : Int) ≠ 0 := by omega
  have hlt := Nat.mod_lt i hW
  have hcol' : ¬ (((i % W : Nat) : Int) < 0) := by omega
  have hmw : ¬ ((MAX_WIDTH : Int) ≤ ((i % W : Nat) : Int)) := by omega
  have hci : column_insert (i % W) (window_shift (array2 3 3 wf), array2 2 MAX_WIDTH lf) =
      ([[wf 0 1, wf 0 2, lf 0 (i % W)], [wf 1 1, wf 1 2, lf 1 (i % W)], [wf 2 1, wf 2 2, wf 2 2]],
        array2 2 MAX_WIDTH (line_buffer_next wf lf (i % W))) := by
    rw [array2_3x3, window_shift_3x3, column_insert_array2 _ _ _ _ _ _ _ _ _ _ _ (by omega)]
    rfl
  have hws : window_shift_checked (array2 3 3 wf) = some (window_shift (array2 3 3 wf)) := by
    rw [array2_3x3, window_shift_checked_3x3]
  have hcc : column_insert_checked (i % W) (window_shift (array2 3 3 wf), array2 2 MAX_WIDTH lf) =
      some ([[wf 0 1, wf 0 2, lf 0 (i % W)], [wf 1 1, wf 1 2, lf 1 (i % W)],
          [wf 2 1, wf 2 2, wf 2 2]],
        array2 2 MAX_WIDTH (line_buffer_next wf lf (i % W))) := by
    rw [← hci, array2_3x3, window_shift_3x3,
      column_insert_checked_array2 _ _ _ _ _ _ _ _ _ _ _ (by omega)]
  have hset : ∀ a b c d e f g h k : Nat,
      set2 [[a, b, c], [d, e, f], [g, h, k]] (KERNEL_SIZE - 1) (KERNEL_SIZE - 1) x =
        [[a, b, c], [d, e, f], [g, h, x]] := fun _ _ _ _ _ _ _ _ _ => rfl
  have hsetc : ∀ a b c d e f g h k : Nat,
      set2_checked [[a, b, c], [d, e, f], [g, h, k]] (KERNEL_SIZE - 1) (KERNEL_SIZE - 1) x =
        some [[a, b, c], [d, e, f], [g, h, x]] := fun _ _ _ _ _ _ _ _ _ => rfl
  unfold sobel_step sobel_step_checked
  simp only [hW0, if_false, ← Int.ofNat_tdiv, ← Int.ofNat_tmod, hcol', Int.toNat_natCast,
    hws, Option.some_bind, hcc, hci, hset, hsetc, edge_pixel_checked_3x3, hmw, false_or]

theorem sobel_loop_checked_array2 (H W : Nat) (hW : 0 < W) (hW' : W ≤ MAX_WIDTH) (n : Nat) :
    ∀ (i : Nat) (wf lf : Nat → Nat → Nat) (s out lg : List Nat),
      sobel_loop_checked H W i n
        { line_buffer := array2 2 MAX_WIDTH lf, window := array2 3 3 wf,
          stream_grayscale := s, stream_edge_output := out, emit_log := lg } =
        sobel_loop H W i n
          { line_buffer := array2 2 MAX_WIDTH lf, window := array2 3 3 wf,
            stream_grayscale := s, stream_edge_output := out, emit_log := lg } := by
  induction n with
  | zero => intro i wf lf s out lg; rfl
  | succ n ih =>
    intro i wf lf s out lg
    cases s with
    | nil => rfl
    | cons x rest =>
      unfold sobel_loop_checked sobel_loop
      rw [sobel_step_checked_array2 H W hW hW', sobel_step_array2 H W hW hW']
      exact ih (i + 1) _ _ rest _ _

theorem sobel_process_checked_eq (window0 : Nat → Nat → Nat) (H W : Nat) (hW : 0 < W)
    (hW' : W ≤ MAX_WIDTH) (s out : List Nat) :
    sobel_process_checked window0 s out H W = sobel_process window0 s out H W := by
  unfold sobel_process_checked sobel_process
  rw [replicate_eq_array2]
  exact sobel_loop_checked_array2 H W hW hW' _ 0 window0 (fun _ _ => 0) s out []

/-- C18: for `1 ≤ width ≤ MAX_WIDTH`, `height * width` representable as an
`int` and a grayscale stream that holds at least `height * width` samples, the
run of `sobel_process` in which the division and every access to `line_buffer`,
`window`, `S_KX` and `S_KY` is checked has a result, the same as the run of
`sobel_process`: no division by zero and no index outside an array is reached.
The column of every iteration is in `0 .. width - 1`. -/
theorem sobel_process_panic_free (window0 : Nat → Nat → Nat) (H W : Nat) (hW : 1 ≤ W)
    (hW' : W ≤ MAX_WIDTH) (hrep : H * W < 2147483648) (g rest out : List Nat)
    (hg : g.length = H * W) :
    (∃ st, sobel_process_checked window0 (g ++ rest) out H W = some st ∧
      sobel_process window0 (g ++ rest) out H W = some st) ∧
      (W : Int) ≠ 0 ∧
      ∀ i : Nat, 0 ≤ Int.tmod i W ∧ Int.tmod i W < W ∧ Int.tmod i W < (MAX_WIDTH : Int) := by
  obtain ⟨st, h, _⟩ := sobel_process_some window0 H W hW hW' hrep g rest out hg
  refine ⟨⟨st, ?_, h⟩, by omega, ?_⟩
  · rw [sobel_process_checked_eq window0 H W hW hW', h]
  · intro i
    have hlt := Nat.mod_lt i hW
    rw [← Int.ofNat_tmod]
    omega

/-- Witness of C18 on a 3x3 image. -/
theorem sobel_process_panic_free_witness :
    (∃ st, sobel_process_checked (fun _ _ => 0) ([1, 2, 3, 4, 5, 6, 7, 8, 9] ++ []) []
        ((3 : Nat) : Int) ((3 : Nat) : Int) = some st ∧
      sobel_process (fun _ _ => 0) ([1, 2, 3, 4, 5, 6, 7, 8, 9] ++ []) []
        ((3 : Nat) : Int) ((3 : Nat) : Int) = some st) ∧
      ((3 : Nat) : Int) ≠ 0 ∧
      ∀ i : Nat, 0 ≤ Int.tmod i ((3 : Nat) : Int) ∧ Int.tmod i ((3 : Nat) : Int) < ((3 : Nat) : Int) ∧
        Int.tmod i ((3 : Nat) : Int) < (MAX_WIDTH : Int) :=
  sobel_process_panic_free (fun _ _ => 0) 3 3 (by decide) (by decide) (by decide)
    [1, 2, 3, 4, 5, 6, 7, 8, 9] [] [] (by decide)

/-! ## Grey pixels and the test-bench helpers -/

/-- C21: for every `v` in 0..255, `grayscale_weighted(v, v, v) = v`, the
weights `77 + 150 + 29` sum to 256, and a slot that holds `0x00VVVVVV` (the
value `v` in each of the bytes 0, 1 and 2) is converted to the luma sample `v`
by the body of `UNPACK_PIXELS`. -/
theorem grey_pixel_fixed_point (v : Nat) (hv : v ≤ 255) :
    grayscale_weighted v v v = v ∧ (77 + 150 + 29 = 256) ∧
      ∀ wide_data p, slot wide_data p = v * 2 ^ 16 + v * 2 ^ 8 + v →
        unpack_pixel wide_data p = v := by
  refine ⟨?_, rfl, ?_⟩
  · rw [grayscale_weighted_eq v v v hv hv hv]
    omega
  · intro wide_data p h
    have e0 : (v * 2 ^ 16 + v * 2 ^ 8 + v) % 2 ^ 24 = v * 65536 + v * 256 + v := by omega
    have e1 : (v * 65536 + v * 256 + v) / 2 ^ 16 = v := by omega
    have e2 : (v * 65536 + v * 256 + v) / 2 ^ 8 = v * 256 + v := by omega
    have e3 : (v * 256 + v) % 256 = v := by omega
    have e4 : (v * 65536 + v * 256 + v) % 256 = v := by omega
    rw [unpack_pixel_low24, h, e0, e1, e2, e3, e4]
    omega

/-- Witness of C21 at `v = 200`. -/
theorem grey_pixel_fixed_point_witness :
    grayscale_weighted 200 200 200 = 200 ∧ (77 + 150 + 29 = 256) ∧
      ∀ wide_data p, slot wide_data p = 200 * 2 ^ 16 + 200 * 2 ^ 8 + 200 →
        unpack_pixel wide_data p = 200 :=
  grey_pixel_fixed_point 200 (by decide)

/-- C22: for a size `n` with `n + 15` representable as an `int`, an array `x`
of `n` 32-bit values, an array `packed` of at least `ceil(n / 16)` words and an
array `u` of at least `n` slots, `pack_image_data(x, packed, n)` followed by
`unpack_image_data(packed, u, n)` returns, and `u[k] = x[k]` for every `k < n`.
`pack_image_data` writes exactly the words `0 .. ceil(n / 16) - 1` of `packed`,
and in these words every slot whose pixel index is `n` or more is 0. -/
theorem pack_image_data_round_trip (n : Nat) (hn : n + 15 < 2147483648) (x : List Nat)
    (hx : x.length = n) (h32 : ∀ v ∈ x, v < 2 ^ 32) (packed u : List Nat)
    (hp : (n + 15) / 16 ≤ packed.length) (hu : n ≤ u.length) :
    ∃ P U, pack_image_data x packed n = some P ∧ unpack_image_data P u n = some U ∧
      (∀ k, k < n → U[k]? = x[k]?) ∧
      P.length = packed.length ∧
      (∀ j, (n + 15) / 16 ≤ j → P[j]? = packed[j]?) ∧
      (∀ j, j < (n + 15) / 16 → ∃ wd, P[j]? = some wd ∧
        ∀ q, n ≤ 16 * j + q → slot wd q = 0) := by
  obtain ⟨P, hP, hPl, hPw, hPk⟩ := pack_image_data_some x packed n hn (by omega) hp
  obtain ⟨U, hU, _, hUk⟩ := unpack_image_data_some P n hn u (by omega) hu
  refine ⟨P, U, hP, hU, ?_, hPl, hPk, ?_⟩
  · intro k hk
    obtain ⟨wd, hwd, hq⟩ := hPw (k / 16) (by omega)
    have hg : P.getD (k / 16) 0 = wd := by
      rw [List.getD_eq_getElem?_getD, hwd]
      rfl
    have hk16 : 16 * (k / 16) + k % 16 = k := Nat.div_add_mod k 16
    have hlt : k % 16 < 16 := Nat.mod_lt k (by decide)
    have hkx : k < x.length := by omega
    have hxk : x.getD k 0 = x[k] := by
      rw [List.getD_eq_getElem?_getD, List.getElem?_eq_getElem hkx]
      rfl
    have hv : x[k] < 2 ^ 32 := h32 _ (List.getElem_mem hkx)
    rw [hUk k hk, hg, hq, hk16, if_pos ⟨hlt, hk⟩, hxk, Nat.mod_eq_of_lt hv,
      List.getElem?_eq_getElem hkx]
  · intro j hj
    obtain ⟨wd, hwd, hq⟩ := hPw j hj
    refine ⟨wd, hwd, ?_⟩
    intro q hge
    rw [hq, if_neg (by omega)]

/-- Witness of C22 on an array of three values. -/
theorem pack_image_data_round_trip_witness :
    ∃ P U, pack_image_data [7, 0, 4294967295] [0] ((3 : Nat) : Int) = some P ∧
      unpack_image_data P [0, 0, 0] ((3 : Nat) : Int) = some U ∧
      (∀ k, k < 3 → U[k]? = [7, 0, 4294967295][k]?) ∧
      P.length = [0].length ∧
      (∀ j, (3 + 15) / 16 ≤ j → P[j]? = [0][j]?) ∧
      (∀ j, j < (3 + 15) / 16 → ∃ wd, P[j]? = some wd ∧
        ∀ q, 3 ≤ 16 * j + q → slot wd q = 0) :=
  pack_image_data_round_trip 3 (by decide) [7, 0, 4294967295] (by decide) (by decide) [0]
    [0, 0, 0] (by decide) (by decide)

end ImageProcess
